import Mathlib

/-! CareQueue: a shallow embedding of `src/main.cpp`

The clinic of `src/main.cpp` is embedded as a pure state-passing model.

* Strings are Lean `String`s, the C++ `int` urgency is an `Int` (the code never
  does arithmetic on it, it only stores, returns and compares it).
* A heap object is named by its address, a `Nat`.  A `unique_ptr<Appointment>`
  and a raw `Appointment*` that is dereferenced are both an `ApptRef`: the
  address together with the object found there.  The reference lists of
  `Patient` and `Doctor` hold bare addresses.
* A `Patient*` / `Doctor*` returned by a lookup is the position of the entity in
  the owning vector (entities are never removed, so positions are stable).
* Every mutating member function returns the new state together with the text it
  writes to `cout`.
* `std::sort` is library code: `generateReport` takes it as a parameter, and the
  theorems assume the contract the C++ standard gives for it (`StdSort`).
-/

namespace CareQueue

/-! ## Appointment, RegularAppointment, EmergencyAppointment (lines 13-55) -/

/-- The two subclasses of `Appointment` with their own data members. -/
inductive Kind where
  | Regular (reason : String)
  | Emergency (urgency : Int)
  deriving DecidableEq, Repr

/-- The class `Appointment`: the four base members plus the subclass part. -/
structure Appointment where
  date : String
  time : String
  patientID : String
  doctorID : String
  kind : Kind
  deriving DecidableEq, Repr

/-- Constructor `RegularAppointment(d, t, pid, did, r)`. -/
def RegularAppointment (d t pid did r : String) : Appointment :=
  { date := d, time := t, patientID := pid, doctorID := did, kind := Kind.Regular r }

/-- Constructor `EmergencyAppointment(d, t, pid, did, u)`. -/
def EmergencyAppointment (d t pid did : String) (u : Int) : Appointment :=
  { date := d, time := t, patientID := pid, doctorID := did, kind := Kind.Emergency u }

/-- The virtual `getPriority()`: `return 1;` for Regular, `return urgency;` for Emergency. -/
def Appointment.getPriority (a : Appointment) : Int :=
  match a.kind with
  | Kind.Regular _ => 1
  | Kind.Emergency u => u

/-- The virtual `getType()`. -/
def Appointment.getType (a : Appointment) : String :=
  match a.kind with
  | Kind.Regular _ => "Regular"
  | Kind.Emergency _ => "Emergency"

@[simp] def Appointment.getDate (a : Appointment) : String := a.date
@[simp] def Appointment.getTime (a : Appointment) : String := a.time
@[simp] def Appointment.getPatientID (a : Appointment) : String := a.patientID
@[simp] def Appointment.getDoctorID (a : Appointment) : String := a.doctorID

/-- An appointment on the heap: its address and the object stored there.  Models both
`unique_ptr<Appointment>` (an element of `Clinic::appointments`) and a dereferenceable
`Appointment*` (an element of the local vector `sorted`). -/
structure ApptRef where
  ptr : Nat
  obj : Appointment
  deriving DecidableEq, Repr

/-! ## Patient and Doctor (lines 58-120) -/

/-- The class `Patient`; `appointments` is the non-owning `vector<Appointment*>`. -/
structure Patient where
  name : String
  id : String
  appointments : List Nat
  deriving DecidableEq, Repr

/-- Constructor `Patient(n, i)`: the reference list starts empty. -/
def Patient.new (n i : String) : Patient :=
  { name := n, id := i, appointments := [] }

@[simp] def Patient.getID (p : Patient) : String := p.id

/-- `appointments.push_back(a)`. -/
def Patient.addAppointment (p : Patient) (a : Nat) : Patient :=
  { p with appointments := p.appointments ++ [a] }

/-- `appointments.erase(remove(begin, end, a), end)`: the erase-remove idiom drops every
element that compares equal to `a` and keeps the others in order. -/
def Patient.removeAppointment (p : Patient) (a : Nat) : Patient :=
  { p with appointments := p.appointments.filter (fun x => x != a) }

/-- The class `Doctor`. -/
structure Doctor where
  name : String
  id : String
  specialty : String
  appointments : List Nat
  deriving DecidableEq, Repr

/-- Constructor `Doctor(n, i, s)`. -/
def Doctor.new (n i s : String) : Doctor :=
  { name := n, id := i, specialty := s, appointments := [] }

@[simp] def Doctor.getID (d : Doctor) : String := d.id

/-- `appointments.push_back(a)`. -/
def Doctor.addAppointment (d : Doctor) (a : Nat) : Doctor :=
  { d with appointments := d.appointments ++ [a] }

/-- `appointments.erase(remove(begin, end, a), end)`. -/
def Doctor.removeAppointment (d : Doctor) (a : Nat) : Doctor :=
  { d with appointments := d.appointments.filter (fun x => x != a) }

/-! ## Clinic (lines 123-205) -/

/-- The class `Clinic`: the three owning vectors. -/
structure Clinic where
  patients : List Patient
  doctors : List Doctor
  appointments : List ApptRef
  deriving DecidableEq, Repr

/-- A default-constructed `Clinic` (`Clinic clinic;` in `main`). -/
def Clinic.empty : Clinic :=
  { patients := [], doctors := [], appointments := [] }

/-- The loop `for (auto& x : xs) if (pred x) return x.get(); return nullptr;` with the
returned pointer given as the position of the element. -/
def findIndex {α : Type} (pred : α → Bool) : List α → Option Nat
  | [] => none
  | x :: xs => if pred x then some 0 else (findIndex pred xs).map (fun i => i + 1)

/-- The in-place update `xs[i]->f()`; positions past the end leave the vector alone. -/
def modifyAt {α : Type} (f : α → α) : Nat → List α → List α
  | _, [] => []
  | 0, x :: xs => f x :: xs
  | i + 1, x :: xs => x :: modifyAt f i xs

/-- The algorithm `std::find_if(first, last, pred)`: the position of the first element
satisfying `pred` together with that element (the iterator and `*it`), or `none` for
`last`. -/
def find_if {α : Type} (pred : α → Bool) : List α → Option (Nat × α)
  | [] => none
  | x :: xs =>
    if pred x then some (0, x) else (find_if pred xs).map (fun r => (r.1 + 1, r.2))

/-- `Clinic::findPatient`. -/
def Clinic.findPatient (c : Clinic) (id : String) : Option Nat :=
  findIndex (fun p => p.getID == id) c.patients

/-- `Clinic::findDoctor`. -/
def Clinic.findDoctor (c : Clinic) (id : String) : Option Nat :=
  findIndex (fun d => d.getID == id) c.doctors

/-- `Clinic::addPatient`: `patients.push_back(make_unique<Patient>(name, id))`; prints
nothing. -/
def Clinic.addPatient (c : Clinic) (name id : String) : Clinic × String :=
  ({ c with patients := c.patients ++ [Patient.new name id] }, "")

/-- `Clinic::addDoctor`. -/
def Clinic.addDoctor (c : Clinic) (name id spec : String) : Clinic × String :=
  ({ c with doctors := c.doctors ++ [Doctor.new name id spec] }, "")

/-- `Clinic::bookAppointment`. -/
def Clinic.bookAppointment (c : Clinic) (appt : ApptRef) : Clinic × String :=
  match c.findPatient appt.obj.getPatientID, c.findDoctor appt.obj.getDoctorID with
  | some p, some d =>
    ({ patients := modifyAt (fun x => x.addAppointment appt.ptr) p c.patients
       doctors := modifyAt (fun x => x.addAppointment appt.ptr) d c.doctors
       appointments := c.appointments ++ [appt] },
     "Appointment booked.\n")
  | _, _ => (c, "Invalid patient or doctor ID.\n")

/-- The lambda of `cancelAppointment`: equality on all four criteria. -/
def cancelMatch (pid did date time : String) (a : ApptRef) : Bool :=
  a.obj.getPatientID == pid && a.obj.getDoctorID == did &&
    a.obj.getDate == date && a.obj.getTime == time

/-- `Clinic::cancelAppointment`. -/
def Clinic.cancelAppointment (c : Clinic) (pid did date time : String) : Clinic × String :=
  match find_if (cancelMatch pid did date time) c.appointments with
  | none => (c, "Appointment not found.\n")
  | some (it, a) =>
    let appt := a.ptr
    let patients :=
      match c.findPatient pid with
      | some p => modifyAt (fun x => x.removeAppointment appt) p c.patients
      | none => c.patients
    let doctors :=
      match c.findDoctor did with
      | some d => modifyAt (fun x => x.removeAppointment appt) d c.doctors
      | none => c.doctors
    ({ patients := patients, doctors := doctors, appointments := c.appointments.eraseIdx it },
     "Appointment cancelled.\n")

/-- The comparator lambda of `generateReport`:
`a->getPriority() > b->getPriority()`. -/
def reportLess (a b : ApptRef) : Bool :=
  decide (a.obj.getPriority > b.obj.getPriority)

/-- One line of the report, as streamed to `cout`. -/
def reportLine (a : ApptRef) : String :=
  a.obj.getDate ++ " " ++ a.obj.getTime ++ " | Patient: " ++ a.obj.getPatientID ++
    " | Doctor: " ++ a.obj.getDoctorID ++ " | " ++ a.obj.getType ++
    " | Priority: " ++ toString a.obj.getPriority ++ "\n"

/-- The local vector `sorted` of `generateReport` after the call of `sort`: the stored
pointers in collection order, rearranged by the library sort under `reportLess`. -/
def Clinic.reportEntries (sort : (ApptRef → ApptRef → Bool) → List ApptRef → List ApptRef)
    (c : Clinic) : List ApptRef :=
  sort reportLess c.appointments

/-- `Clinic::generateReport` (a `const` member): the state it leaves and the text it
prints, one line per element of `sorted`. -/
def Clinic.generateReport (sort : (ApptRef → ApptRef → Bool) → List ApptRef → List ApptRef)
    (c : Clinic) : Clinic × String :=
  (c, "\n--- Appointment Report ---\n" ++ String.join ((c.reportEntries sort).map reportLine))

/-! ## The contract of `std::sort` -/

/-- The requirement the C++ standard puts on a comparator (*Compare*): a strict weak
ordering. -/
def StrictWeakOrder {α : Type} (comp : α → α → Bool) : Prop :=
  (∀ a, comp a a = false) ∧
  (∀ a b c, comp a b = true → comp b c = true → comp a c = true) ∧
  (∀ a b c, comp a b = false → comp b a = false → comp b c = false → comp c b = false →
    comp a c = false ∧ comp c a = false)

/-- What the C++ standard promises of `std::sort(first, last, comp)` for a comparator that
is a strict weak ordering: the range is rearranged (a permutation of the input) and is
sorted with respect to `comp`, that is, `comp(*(i + n), *i)` is false for every position
`i` and every `n ≥ 0`.  The relative order of equivalent elements is left open. -/
def StdSort {α : Type} (sort : (α → α → Bool) → List α → List α) : Prop :=
  ∀ comp l, StrictWeakOrder comp →
    (sort comp l).Perm l ∧ (sort comp l).Pairwise (fun a b => comp b a = false)

/-- Insertion of one element into a sorted list: it passes the elements that strictly
precede it and stops before the first one that does not. -/
def insertSorted {α : Type} (comp : α → α → Bool) (a : α) : List α → List α
  | [] => [a]
  | x :: xs => if comp x a then x :: insertSorted comp a xs else a :: x :: xs

/-- Insertion sort: one admissible implementation of the `std::sort` contract (it keeps
equivalent elements in their original order), used to run the report on concrete
clinics. -/
def insertionSort {α : Type} (comp : α → α → Bool) : List α → List α
  | [] => []
  | x :: xs => insertSorted comp x (insertionSort comp xs)

/-- Insertion of one element into a sorted list, before the first element it strictly
precedes, so behind the elements equivalent to it. -/
def insertBehindEquals {α : Type} (comp : α → α → Bool) (a : α) : List α → List α
  | [] => [a]
  | x :: xs => if comp a x then a :: x :: xs else x :: insertBehindEquals comp a xs

/-- A second admissible implementation of the `std::sort` contract: an insertion sort that
reverses the original order of equivalent elements. -/
def insertionSortTiesReversed {α : Type} (comp : α → α → Bool) : List α → List α
  | [] => []
  | x :: xs => insertBehindEquals comp x (insertionSortTiesReversed comp xs)

/-! ## Reachable clinic states -/

/-- The states a `Clinic` can be in: `main` starts from the empty clinic and calls the four
mutating member functions.  The `unique_ptr` handed to `bookAppointment` owns a live
object, so its address differs from the address of every appointment the clinic stores. -/
inductive Reachable : Clinic → Prop
  | empty : Reachable Clinic.empty
  | addPatient {c : Clinic} (name id : String) :
      Reachable c → Reachable (c.addPatient name id).1
  | addDoctor {c : Clinic} (name id spec : String) :
      Reachable c → Reachable (c.addDoctor name id spec).1
  | book {c : Clinic} (appt : ApptRef) :
      Reachable c → (∀ a ∈ c.appointments, a.ptr ≠ appt.ptr) →
      Reachable (c.bookAppointment appt).1
  | cancel {c : Clinic} (pid did date time : String) :
      Reachable c → Reachable (c.cancelAppointment pid did date time).1

/-! ## Concrete clinics used as test inputs -/

/-- The clinic of the spec's scenario: patient Alice `P1`, doctor Bob `D1`. -/
def demoBase : Clinic :=
  ((Clinic.empty.addPatient "Alice" "P1").1.addDoctor "Bob" "D1" "Cardiology").1

/-- The Regular appointment of the scenario, at address 100. -/
def demoRegular : ApptRef :=
  { ptr := 100, obj := RegularAppointment "2024-01-01" "10:00" "P1" "D1" "Checkup" }

/-- The Emergency appointment of the scenario, at address 200. -/
def demoEmergency : ApptRef :=
  { ptr := 200, obj := EmergencyAppointment "2024-01-01" "11:00" "P1" "D1" 5 }

/-- The scenario after both bookings. -/
def demoBooked : Clinic :=
  ((demoBase.bookAppointment demoRegular).1.bookAppointment demoEmergency).1

/-- The spec's words for a cancellation match: the stored appointment equals the criteria
on all four fields. -/
def FourFieldsEq (pid did date time : String) (a : ApptRef) : Prop :=
  a.obj.patientID = pid ∧ a.obj.doctorID = did ∧ a.obj.date = date ∧ a.obj.time = time

instance (pid did date time : String) (a : ApptRef) :
    Decidable (FourFieldsEq pid did date time a) := by
  unfold FourFieldsEq
  infer_instance

/-- A second heap object with the same fields as `demoRegular`, at address 101. -/
def demoRegularTwin : ApptRef :=
  { ptr := 101, obj := RegularAppointment "2024-01-01" "10:00" "P1" "D1" "Checkup" }

/-- The scenario clinic after booking `demoRegular` only. -/
def demoOne : Clinic := (demoBase.bookAppointment demoRegular).1

/-- The scenario clinic after a double booking: `demoRegular`, then its twin. -/
def demoTwins : Clinic := (demoOne.bookAppointment demoRegularTwin).1

/-- An appointment for the unregistered patient `P9`. -/
def demoUnknownPatient : ApptRef :=
  { ptr := 300, obj := RegularAppointment "2024-01-01" "10:00" "P9" "D1" "Checkup" }

/-- Back-reference bookkeeping for one kind of entity.  `refs` are the reference lists of
the entities in vector order, `find` is the lookup by id and `key` reads the id an
appointment carries: the list of the entity at position `i` holds exactly the addresses
of the stored appointments whose id resolves to `i`, in collection order. -/
def RefsOK (find : String → Option Nat) (key : ApptRef → String) (refs : List (List Nat))
    (appts : List ApptRef) : Prop :=
  ∀ i r, refs[i]? = some r →
    r = (appts.filter (fun a => find (key a) == some i)).map (fun a => a.ptr)

/-- The consistency of a clinic state: stored appointments live at pairwise different
addresses, their patient and doctor ids resolve, and the reference lists of patients and
doctors mirror the collection. -/
def Consistent (c : Clinic) : Prop :=
  (c.appointments.map (fun a => a.ptr)).Nodup ∧
  (∀ a ∈ c.appointments, c.findPatient a.obj.patientID ≠ none) ∧
  (∀ a ∈ c.appointments, c.findDoctor a.obj.doctorID ≠ none) ∧
  RefsOK c.findPatient (fun a => a.obj.patientID) (c.patients.map (fun p => p.appointments))
    c.appointments ∧
  RefsOK c.findDoctor (fun a => a.obj.doctorID) (c.doctors.map (fun d => d.appointments))
    c.appointments

/-- A clinic with a duplicated patient id: two patients registered as `P1`, one doctor. -/
def demoDupIds : Clinic :=
  (((Clinic.empty.addPatient "Alice" "P1").1.addPatient "Carol" "P1").1.addDoctor
    "Bob" "D1" "Cardiology").1

/-- A patient whose reference list holds the address 1 twice. -/
def demoRepeatedRefs : Patient :=
  { name := "Alice", id := "P1", appointments := [1, 2, 1] }

/-- A doctor whose reference list holds the address 1 twice. -/
def demoRepeatedRefsDoctor : Doctor :=
  { name := "Bob", id := "D1", specialty := "Cardiology", appointments := [1, 2, 1] }

/-- The clinic with the duplicated patient id after booking the scenario's Regular
appointment for `P1`. -/
def demoDupBooked : Clinic := (demoDupIds.bookAppointment demoRegular).1

/-- The identity records of the patients, in vector order: `(name, id)`. -/
def patientRecords (c : Clinic) : List (String × String) :=
  c.patients.map (fun p => (p.name, p.id))

/-- The identity records of the doctors, in vector order: `(name, id, specialty)`. -/
def doctorRecords (c : Clinic) : List (String × String × String) :=
  c.doctors.map (fun d => (d.name, d.id, d.specialty))

/-- The fields of an appointment that its report line shows: date, time, patient,
doctor, type and priority (the reason of a Regular appointment is not printed). -/
def printedFields (a : ApptRef) : String × String × String × String × String × Int :=
  (a.obj.getDate, a.obj.getTime, a.obj.getPatientID, a.obj.getDoctorID, a.obj.getType,
    a.obj.getPriority)

/-- A Regular appointment that differs from `demoRegular` in its reason only, at address
102: its report line is the same. -/
def demoRegularOtherReason : ApptRef :=
  { ptr := 102, obj := RegularAppointment "2024-01-01" "10:00" "P1" "D1" "Follow-up" }

/-! ## Helper lemmas on the scanning and update primitives -/

theorem findIndex_eq_none_iff {α : Type} (pred : α → Bool) (l : List α) :
    findIndex pred l = none ↔ ∀ x ∈ l, pred x = false := by
  induction l with
  | nil => simp [findIndex]
  | cons x xs ih =>
    by_cases hx : pred x = true
    · simp [findIndex, hx]
    · simp only [Bool.not_eq_true] at hx
      simp [findIndex, hx, ih]

theorem findIndex_some_spec {α : Type} (pred : α → Bool) (l : List α) (i : Nat)
    (h : findIndex pred l = some i) :
    ∃ x, l[i]? = some x ∧ pred x = true ∧
      ∀ j y, j < i → l[j]? = some y → pred y = false := by
  induction l generalizing i with
  | nil => simp [findIndex] at h
  | cons x xs ih =>
    by_cases hx : pred x = true
    · simp [findIndex, hx] at h
      subst h
      exact ⟨x, by simp, hx, fun j y hj => absurd hj (Nat.not_lt_zero j)⟩
    · simp only [Bool.not_eq_true] at hx
      cases hk : findIndex pred xs with
      | none => simp [findIndex, hx, hk] at h
      | some k =>
      simp [findIndex, hx, hk] at h
      subst h
      obtain ⟨y, hy, hpy, hlt⟩ := ih k hk
      refine ⟨y, by simpa using hy, hpy, ?_⟩
      intro j z hj hz
      cases j with
      | zero =>
        simp at hz
        subst hz
        exact hx
      | succ j =>
        simp at hz
        exact hlt j z (by omega) hz

theorem findIndex_append {α : Type} (pred : α → Bool) (l l2 : List α) :
    findIndex pred (l ++ l2) =
      match findIndex pred l with
      | some i => some i
      | none => (findIndex pred l2).map (fun i => i + l.length) := by
  induction l with
  | nil => simp [findIndex]
  | cons x xs ih =>
    by_cases hx : pred x = true
    · simp [findIndex, hx]
    · simp only [Bool.not_eq_true] at hx
      cases hk : findIndex pred xs with
      | some i => simp [findIndex, hx, ih, hk]
      | none =>
        cases hk2 : findIndex pred l2 with
        | none => simp [findIndex, hx, ih, hk, hk2]
        | some k => simp [findIndex, hx, ih, hk, hk2]; omega

theorem findIndex_modifyAt {α : Type} (pred : α → Bool) (f : α → α)
    (hf : ∀ x, pred (f x) = pred x) (i : Nat) (l : List α) :
    findIndex pred (modifyAt f i l) = findIndex pred l := by
  induction l generalizing i with
  | nil => cases i <;> simp [modifyAt]
  | cons x xs ih =>
    cases i with
    | zero => simp [modifyAt, findIndex, hf]
    | succ i => simp [modifyAt, findIndex, ih]

theorem length_modifyAt {α : Type} (f : α → α) (i : Nat) (l : List α) :
    (modifyAt f i l).length = l.length := by
  induction l generalizing i with
  | nil => cases i <;> simp [modifyAt]
  | cons x xs ih => cases i <;> simp [modifyAt, ih]

theorem getElem?_modifyAt {α : Type} (f : α → α) (i j : Nat) (l : List α) :
    (modifyAt f i l)[j]? = if j = i then l[j]?.map f else l[j]? := by
  induction l generalizing i j with
  | nil => cases i <;> simp [modifyAt]
  | cons x xs ih =>
    cases i with
    | zero => cases j <;> simp [modifyAt]
    | succ i => cases j <;> simp [modifyAt, ih]

theorem map_modifyAt {α β : Type} (g : α → β) (f : α → α) (hf : ∀ x, g (f x) = g x)
    (i : Nat) (l : List α) : (modifyAt f i l).map g = l.map g := by
  induction l generalizing i with
  | nil => cases i <;> simp [modifyAt]
  | cons x xs ih => cases i <;> simp [modifyAt, hf, ih]

theorem find_if_eq_none_iff {α : Type} (pred : α → Bool) (l : List α) :
    find_if pred l = none ↔ ∀ x ∈ l, pred x = false := by
  induction l with
  | nil => simp [find_if]
  | cons x xs ih =>
    by_cases hx : pred x = true
    · simp [find_if, hx]
    · simp only [Bool.not_eq_true] at hx
      simp [find_if, hx, ih]

theorem find_if_some_spec {α : Type} (pred : α → Bool) (l : List α) (k : Nat) (a : α)
    (h : find_if pred l = some (k, a)) :
    ∃ pre post, l = pre ++ a :: post ∧ pre.length = k ∧ pred a = true ∧
      (∀ x ∈ pre, pred x = false) ∧ l.eraseIdx k = pre ++ post := by
  induction l generalizing k with
  | nil => simp [find_if] at h
  | cons x xs ih =>
    by_cases hx : pred x = true
    · simp [find_if, hx] at h
      obtain ⟨rfl, rfl⟩ := h
      exact ⟨[], xs, by simp, rfl, hx, by simp, by simp⟩
    · simp only [Bool.not_eq_true] at hx
      cases hk : find_if pred xs with
      | none => simp [find_if, hx, hk] at h
      | some r =>
      obtain ⟨k2, b⟩ := r
      simp [find_if, hx, hk] at h
      obtain ⟨rfl, rfl⟩ := h
      obtain ⟨pre, post, hl, hlen, hp, hpre, her⟩ := ih k2 hk
      refine ⟨x :: pre, post, by simp [hl], by simp [hlen], hp, ?_, ?_⟩
      · intro y hy
        rcases List.mem_cons.1 hy with rfl | hy
        · exact hx
        · exact hpre y hy
      · simp [List.eraseIdx, her]

/-! ## The comparator and the sort -/

theorem reportLess_strictWeakOrder : StrictWeakOrder reportLess := by
  refine ⟨?_, ?_, ?_⟩
  · intro a
    simp [reportLess]
  · intro a b c hab hbc
    simp only [reportLess, decide_eq_true_eq] at *
    omega
  · intro a b c h1 h2 h3 h4
    simp only [reportLess, decide_eq_false_iff_not] at *
    constructor <;> omega

theorem insertSorted_perm {α : Type} (comp : α → α → Bool) (a : α) (l : List α) :
    (insertSorted comp a l).Perm (a :: l) := by
  induction l with
  | nil => simp [insertSorted]
  | cons x xs ih =>
    by_cases h : comp x a = true
    · simp only [insertSorted, h, if_true]
      exact (List.Perm.cons x ih).trans (List.Perm.swap a x xs)
    · simp [insertSorted, h]

theorem insertionSort_perm {α : Type} (comp : α → α → Bool) (l : List α) :
    (insertionSort comp l).Perm l := by
  induction l with
  | nil => simp [insertionSort]
  | cons x xs ih =>
    exact (insertSorted_perm comp x (insertionSort comp xs)).trans (List.Perm.cons x ih)

theorem strictWeakOrder_asymm {α : Type} (comp : α → α → Bool) (hc : StrictWeakOrder comp)
    (a b : α) (h : comp a b = true) : comp b a = false := by
  obtain ⟨hirr, htrans, _⟩ := hc
  by_contra hba
  simp only [Bool.not_eq_false] at hba
  have := htrans a b a h hba
  rw [hirr] at this
  exact Bool.false_ne_true this

theorem strictWeakOrder_negTrans {α : Type} (comp : α → α → Bool)
    (hc : StrictWeakOrder comp) (y x a : α) (hyx : comp y x = false)
    (hxa : comp x a = false) : comp y a = false := by
  obtain ⟨hirr, htrans, hinc⟩ := hc
  by_contra hya
  simp only [Bool.not_eq_false] at hya
  have hxy : comp x y = false := by
    by_contra hxy
    simp only [Bool.not_eq_false] at hxy
    have := htrans x y a hxy hya
    rw [hxa] at this
    exact Bool.false_ne_true this
  have hax : comp a x = false := by
    by_contra hax
    simp only [Bool.not_eq_false] at hax
    have := htrans y a x hya hax
    rw [hyx] at this
    exact Bool.false_ne_true this
  have := (hinc y x a hyx hxy hxa hax).1
  rw [hya] at this
  exact Bool.false_ne_true this.symm

theorem insertSorted_pairwise {α : Type} (comp : α → α → Bool) (hc : StrictWeakOrder comp)
    (a : α) (l : List α) (hl : l.Pairwise (fun x y => comp y x = false)) :
    (insertSorted comp a l).Pairwise (fun x y => comp y x = false) := by
  induction l with
  | nil => simp [insertSorted]
  | cons x xs ih =>
    obtain ⟨hx, hxs⟩ := List.pairwise_cons.1 hl
    by_cases h : comp x a = true
    · simp only [insertSorted, h, if_true]
      refine List.pairwise_cons.2 ⟨?_, ih hxs⟩
      intro y hy
      rcases List.mem_cons.1 ((insertSorted_perm comp a xs).mem_iff.1 hy) with rfl | hy
      · exact strictWeakOrder_asymm comp hc x y h
      · exact hx y hy
    · simp only [Bool.not_eq_true] at h
      simp only [insertSorted, h, Bool.false_eq_true, if_false]
      refine List.pairwise_cons.2 ⟨?_, hl⟩
      intro y hy
      rcases List.mem_cons.1 hy with rfl | hy
      · exact h
      · exact strictWeakOrder_negTrans comp hc y x a (hx y hy) h

theorem insertionSort_stdSort {α : Type} : StdSort (insertionSort (α := α)) := by
  intro comp l hc
  refine ⟨insertionSort_perm comp l, ?_⟩
  induction l with
  | nil => simp [insertionSort]
  | cons x xs ih => exact insertSorted_pairwise comp hc x _ ih

/-! ## The scenario clinics are reachable -/

theorem reachable_demoOne : Reachable demoOne :=
  Reachable.book demoRegular
    (Reachable.addDoctor "Bob" "D1" "Cardiology"
      (Reachable.addPatient "Alice" "P1" Reachable.empty))
    (by decide)

theorem reachable_demoBooked : Reachable demoBooked :=
  Reachable.book demoEmergency reachable_demoOne (by decide)

theorem reachable_demoTwins : Reachable demoTwins :=
  Reachable.book demoRegularTwin reachable_demoOne (by decide)

/-! ## C1: priorities -/

/-- C1: `getPriority()` of a Regular appointment is 1, whatever its date, time, IDs and
reason, and `getPriority()` of an Emergency appointment equals the urgency it was
constructed with, for every urgency from 1 to 5. -/
theorem C1_getPriority (d t pid did r : String) (d2 t2 pid2 did2 : String) (u : Int)
    (_hu : 1 ≤ u ∧ u ≤ 5) :
    (RegularAppointment d t pid did r).getPriority = 1 ∧
      (EmergencyAppointment d2 t2 pid2 did2 u).getPriority = u := by
  constructor <;> rfl

theorem C1_getPriority_witness :
    ((1 : Int) ≤ 5 ∧ (5 : Int) ≤ 5) ∧
      ((RegularAppointment "2024-01-01" "10:00" "P1" "D1" "Checkup").getPriority = 1 ∧
        (EmergencyAppointment "2024-01-01" "11:00" "P1" "D1" 5).getPriority = 5) :=
  ⟨by decide,
    C1_getPriority "2024-01-01" "10:00" "P1" "D1" "Checkup" "2024-01-01" "11:00" "P1" "D1" 5
      (by decide)⟩

/-! ## C2, C3: the report -/

/-- C2: for every clinic state, under any sort that meets the `std::sort` contract,
`generateReport` prints the header followed by one line per element of the sorted vector,
in that order, and the listed appointments are in descending priority: adjacent entries
`report[i]`, `report[i+1]` satisfy `priority(report[i]) ≥ priority(report[i+1])`. -/
theorem C2_report_descending
    (sort : (ApptRef → ApptRef → Bool) → List ApptRef → List ApptRef) (hs : StdSort sort)
    (c : Clinic) :
    (c.generateReport sort).2 = "\n--- Appointment Report ---\n" ++ String.join ((c.reportEntries sort).map
      (fun a => a.obj.date ++ " " ++ a.obj.time ++ " | Patient: " ++ a.obj.patientID ++
        " | Doctor: " ++ a.obj.doctorID ++ " | " ++ a.obj.getType ++ " | Priority: " ++
        toString a.obj.getPriority ++ "\n")) ∧
    ∀ (i : Nat) (a b : ApptRef),
      (c.reportEntries sort)[i]? = some a → (c.reportEntries sort)[i + 1]? = some b →
      a.obj.getPriority ≥ b.obj.getPriority := by
  refine ⟨rfl, ?_⟩
  intro i a b ha hb
  have hp := (hs reportLess c.appointments reportLess_strictWeakOrder).2
  obtain ⟨hi, rfl⟩ := List.getElem?_eq_some.1 ha
  obtain ⟨hj, rfl⟩ := List.getElem?_eq_some.1 hb
  have h := List.pairwise_iff_getElem.1 hp i (i + 1) hi hj (Nat.lt_succ_self i)
  simp only [reportLess, decide_eq_false_iff_not, not_lt] at h
  exact h

set_option maxRecDepth 100000 in
theorem C2_report_descending_witness :
    StdSort (insertionSort (α := ApptRef)) ∧
      (demoBooked.generateReport insertionSort).2 =
        "\n--- Appointment Report ---\n2024-01-01 11:00 | Patient: P1 | Doctor: D1 | Emergency | Priority: 5\n2024-01-01 10:00 | Patient: P1 | Doctor: D1 | Regular | Priority: 1\n" ∧
      (demoBooked.reportEntries insertionSort)[0]? = some demoEmergency ∧
      (demoBooked.reportEntries insertionSort)[0 + 1]? = some demoRegular ∧
      demoEmergency.obj.getPriority ≥ demoRegular.obj.getPriority :=
  ⟨insertionSort_stdSort, by decide, by decide, by decide,
    (C2_report_descending insertionSort insertionSort_stdSort demoBooked).2 0 demoEmergency
      demoRegular (by decide) (by decide)⟩

/-- C3: for every clinic state, under any sort that meets the `std::sort` contract,
`generateReport` prints the header followed by one line per listed appointment, and the
listed appointments are a permutation of the stored ones: every appointment is listed
exactly as often as it is stored, nothing else is listed, there are as many lines as
stored appointments, and the state after the report is the state before it. -/
theorem C3_report_permutation
    (sort : (ApptRef → ApptRef → Bool) → List ApptRef → List ApptRef) (hs : StdSort sort)
    (c : Clinic) :
    (c.generateReport sort).2 = "\n--- Appointment Report ---\n" ++ String.join ((c.reportEntries sort).map
      (fun a => a.obj.date ++ " " ++ a.obj.time ++ " | Patient: " ++ a.obj.patientID ++
        " | Doctor: " ++ a.obj.doctorID ++ " | " ++ a.obj.getType ++ " | Priority: " ++
        toString a.obj.getPriority ++ "\n")) ∧
      (c.reportEntries sort).Perm c.appointments ∧
      (∀ x, (c.reportEntries sort).count x = c.appointments.count x) ∧
      (∀ x, x ∈ c.reportEntries sort ↔ x ∈ c.appointments) ∧
      (c.reportEntries sort).length = c.appointments.length ∧
      (c.generateReport sort).1 = c := by
  have hp := (hs reportLess c.appointments reportLess_strictWeakOrder).1
  exact ⟨rfl, hp, fun x => hp.count_eq x, fun x => hp.mem_iff, hp.length_eq, rfl⟩

theorem C3_report_permutation_witness :
    StdSort (insertionSort (α := ApptRef)) ∧
    ((demoBooked.generateReport insertionSort).2 = "\n--- Appointment Report ---\n" ++ String.join
        ((demoBooked.reportEntries insertionSort).map
      (fun a => a.obj.date ++ " " ++ a.obj.time ++ " | Patient: " ++ a.obj.patientID ++
        " | Doctor: " ++ a.obj.doctorID ++ " | " ++ a.obj.getType ++ " | Priority: " ++
        toString a.obj.getPriority ++ "\n")) ∧
      (demoBooked.reportEntries insertionSort).Perm demoBooked.appointments ∧
      (∀ x, (demoBooked.reportEntries insertionSort).count x = demoBooked.appointments.count x) ∧
      (∀ x, x ∈ demoBooked.reportEntries insertionSort ↔ x ∈ demoBooked.appointments) ∧
      (demoBooked.reportEntries insertionSort).length = demoBooked.appointments.length ∧
      (demoBooked.generateReport insertionSort).1 = demoBooked) :=
  ⟨insertionSort_stdSort, C3_report_permutation insertionSort insertionSort_stdSort demoBooked⟩

/-! ## C4, C5, C6: booking -/

theorem findPatient_eq_none_iff (c : Clinic) (id : String) :
    c.findPatient id = none ↔ ∀ p ∈ c.patients, p.id ≠ id := by
  simp [Clinic.findPatient, findIndex_eq_none_iff]

theorem findDoctor_eq_none_iff (c : Clinic) (id : String) :
    c.findDoctor id = none ↔ ∀ d ∈ c.doctors, d.id ≠ id := by
  simp [Clinic.findDoctor, findIndex_eq_none_iff]

theorem cancelMatch_iff (pid did date time : String) (a : ApptRef) :
    cancelMatch pid did date time a = true ↔ FourFieldsEq pid did date time a := by
  simp [cancelMatch, FourFieldsEq, and_assoc]

/-- C4: when the appointment's patientID is the id of no registered patient, or its
doctorID the id of no registered doctor, `bookAppointment` prints
"Invalid patient or doctor ID." and returns the clinic state it was given, whole: same
appointments, same patients and doctors, same reference lists. -/
theorem C4_book_invalid_unchanged (c : Clinic) (appt : ApptRef)
    (h : (∀ p ∈ c.patients, p.id ≠ appt.obj.patientID) ∨
         (∀ d ∈ c.doctors, d.id ≠ appt.obj.doctorID)) :
    c.bookAppointment appt = (c, "Invalid patient or doctor ID.\n") := by
  unfold Clinic.bookAppointment
  rcases h with h | h
  · have hp := (findPatient_eq_none_iff c appt.obj.patientID).2 h
    simp only [Appointment.getPatientID, hp]
  · have hd := (findDoctor_eq_none_iff c appt.obj.doctorID).2 h
    simp only [Appointment.getDoctorID, hd]
    cases c.findPatient appt.obj.getPatientID <;> rfl

theorem C4_book_invalid_unchanged_witness :
    ((∀ p ∈ demoBase.patients, p.id ≠ demoUnknownPatient.obj.patientID) ∨
      (∀ d ∈ demoBase.doctors, d.id ≠ demoUnknownPatient.obj.doctorID)) ∧
      demoBase.bookAppointment demoUnknownPatient =
        (demoBase, "Invalid patient or doctor ID.\n") :=
  ⟨by decide, C4_book_invalid_unchanged demoBase demoUnknownPatient (by decide)⟩

/-- C5: when `findPatient` and `findDoctor` both find the appointment's IDs, at positions
`p` and `d`, `bookAppointment` prints "Appointment booked." and changes exactly this: the
appointment is appended to the collection, its address is appended to the list of the
patient at `p` and of the doctor at `d`; every other patient and doctor, the name, id and
specialty of the two found ones, and the stored appointments are as before. -/
theorem C5_book_success (c : Clinic) (appt : ApptRef) (p d : Nat)
    (hp : c.findPatient appt.obj.patientID = some p)
    (hd : c.findDoctor appt.obj.doctorID = some d) :
    (c.bookAppointment appt).2 = "Appointment booked.\n" ∧
    (c.bookAppointment appt).1.appointments = c.appointments ++ [appt] ∧
    (c.bookAppointment appt).1.patients.length = c.patients.length ∧
    (c.bookAppointment appt).1.doctors.length = c.doctors.length ∧
    (∃ x, c.patients[p]? = some x ∧
      (c.bookAppointment appt).1.patients[p]? =
        some { x with appointments := x.appointments ++ [appt.ptr] }) ∧
    (∃ y, c.doctors[d]? = some y ∧
      (c.bookAppointment appt).1.doctors[d]? =
        some { y with appointments := y.appointments ++ [appt.ptr] }) ∧
    (∀ j, j ≠ p → (c.bookAppointment appt).1.patients[j]? = c.patients[j]?) ∧
    (∀ j, j ≠ d → (c.bookAppointment appt).1.doctors[j]? = c.doctors[j]?) := by
  obtain ⟨x, hx, -, -⟩ := findIndex_some_spec _ _ _ hp
  obtain ⟨y, hy, -, -⟩ := findIndex_some_spec _ _ _ hd
  have hb : c.bookAppointment appt =
      ({ patients := modifyAt (fun x => x.addAppointment appt.ptr) p c.patients
         doctors := modifyAt (fun x => x.addAppointment appt.ptr) d c.doctors
         appointments := c.appointments ++ [appt] }, "Appointment booked.\n") := by
    simp only [Clinic.bookAppointment, Appointment.getPatientID, Appointment.getDoctorID, hp, hd]
  rw [hb]
  refine ⟨rfl, rfl, length_modifyAt _ _ _, length_modifyAt _ _ _, ⟨x, hx, ?_⟩, ⟨y, hy, ?_⟩, ?_, ?_⟩
  · simp [getElem?_modifyAt, hx, Patient.addAppointment]
  · simp [getElem?_modifyAt, hy, Doctor.addAppointment]
  · intro j hj
    simp [getElem?_modifyAt, hj]
  · intro j hj
    simp [getElem?_modifyAt, hj]

theorem C5_book_success_witness :
    demoBase.findPatient demoRegular.obj.patientID = some 0 ∧
    demoBase.findDoctor demoRegular.obj.doctorID = some 0 ∧
    ((demoBase.bookAppointment demoRegular).2 = "Appointment booked.\n" ∧
    (demoBase.bookAppointment demoRegular).1.appointments =
      demoBase.appointments ++ [demoRegular] ∧
    (demoBase.bookAppointment demoRegular).1.patients.length = demoBase.patients.length ∧
    (demoBase.bookAppointment demoRegular).1.doctors.length = demoBase.doctors.length ∧
    (∃ x, demoBase.patients[0]? = some x ∧
      (demoBase.bookAppointment demoRegular).1.patients[0]? =
        some { x with appointments := x.appointments ++ [demoRegular.ptr] }) ∧
    (∃ y, demoBase.doctors[0]? = some y ∧
      (demoBase.bookAppointment demoRegular).1.doctors[0]? =
        some { y with appointments := y.appointments ++ [demoRegular.ptr] }) ∧
    (∀ j, j ≠ 0 → (demoBase.bookAppointment demoRegular).1.patients[j]? =
      demoBase.patients[j]?) ∧
    (∀ j, j ≠ 0 → (demoBase.bookAppointment demoRegular).1.doctors[j]? =
      demoBase.doctors[j]?)) :=
  ⟨by decide, by decide, C5_book_success demoBase demoRegular 0 0 (by decide) (by decide)⟩

theorem bookAppointment_appointments_of_found (c : Clinic) (appt : ApptRef)
    (hp : ∃ p ∈ c.patients, p.id = appt.obj.patientID)
    (hd : ∃ d ∈ c.doctors, d.id = appt.obj.doctorID) :
    (c.bookAppointment appt).1.appointments = c.appointments ++ [appt] ∧
      (c.bookAppointment appt).2 = "Appointment booked.\n" := by
  have h1 : c.findPatient appt.obj.patientID ≠ none := by
    rw [Ne, findPatient_eq_none_iff]
    obtain ⟨p, hpm, hpe⟩ := hp
    exact fun h => h p hpm hpe
  have h2 : c.findDoctor appt.obj.doctorID ≠ none := by
    rw [Ne, findDoctor_eq_none_iff]
    obtain ⟨d, hdm, hde⟩ := hd
    exact fun h => h d hdm hde
  obtain ⟨i, hi⟩ := Option.ne_none_iff_exists'.1 h1
  obtain ⟨j, hj⟩ := Option.ne_none_iff_exists'.1 h2
  simp only [Clinic.bookAppointment, Appointment.getPatientID, Appointment.getDoctorID, hi, hj,
    and_self]

theorem countP_report_after_book
    (sort : (ApptRef → ApptRef → Bool) → List ApptRef → List ApptRef) (hs : StdSort sort)
    (c : Clinic) (appt : ApptRef)
    (hp : ∃ p ∈ c.patients, p.id = appt.obj.patientID)
    (hd : ∃ d ∈ c.doctors, d.id = appt.obj.doctorID)
    (m : ApptRef → Bool) (hm : m appt = true) :
    ((c.bookAppointment appt).1.reportEntries sort).countP m =
      (c.reportEntries sort).countP m + 1 := by
  have h1 := (hs reportLess (c.bookAppointment appt).1.appointments
    reportLess_strictWeakOrder).1
  have h0 := (hs reportLess c.appointments reportLess_strictWeakOrder).1
  unfold Clinic.reportEntries
  rw [h1.countP_eq, h0.countP_eq, (bookAppointment_appointments_of_found c appt hp hd).1]
  simp [hm]

theorem countP_report_eq_zero
    (sort : (ApptRef → ApptRef → Bool) → List ApptRef → List ApptRef) (hs : StdSort sort)
    (c : Clinic) (m : ApptRef → Bool) (h : ∀ e ∈ c.appointments, m e = false) :
    (c.reportEntries sort).countP m = 0 := by
  have h0 := (hs reportLess c.appointments reportLess_strictWeakOrder).1
  unfold Clinic.reportEntries
  rw [h0.countP_eq, List.countP_eq_zero]
  intro e he
  rw [h e he]
  exact Bool.false_ne_true

theorem count_lines_eq_countP (l : List ApptRef) (x : String) :
    (l.map reportLine).count x = l.countP (fun e => reportLine e == x) := by
  induction l with
  | nil => rfl
  | cons e es ih =>
    by_cases h : reportLine e = x
    · simp [List.count_cons, List.countP_cons, h, ih]
    · have hb : (reportLine e == x) = false := by simpa using h
      simp [List.count_cons, List.countP_cons, hb, ih]

/-- C6 as stated fails: in the scenario clinic that already stores the Regular appointment,
booking a second appointment with the same fields (a double booking, patient `P1` and
doctor `D1` both registered) succeeds, and the report then prints two lines with the
booked appointment's fields, not one. -/
theorem C6_counterexample :
    Reachable demoOne ∧
    StdSort (insertionSort (α := ApptRef)) ∧
    (∃ p ∈ demoOne.patients, p.id = demoRegularTwin.obj.patientID) ∧
    (∃ d ∈ demoOne.doctors, d.id = demoRegularTwin.obj.doctorID) ∧
    (demoOne.bookAppointment demoRegularTwin).2 = "Appointment booked.\n" ∧
    ((demoOne.bookAppointment demoRegularTwin).1.generateReport insertionSort).2 =
      "\n--- Appointment Report ---\n2024-01-01 10:00 | Patient: P1 | Doctor: D1 | Regular | Priority: 1\n2024-01-01 10:00 | Patient: P1 | Doctor: D1 | Regular | Priority: 1\n" ∧
    reportLine demoRegularTwin =
      "2024-01-01 10:00 | Patient: P1 | Doctor: D1 | Regular | Priority: 1\n" ∧
    (((demoOne.bookAppointment demoRegularTwin).1.reportEntries insertionSort).map
      reportLine).count (reportLine demoRegularTwin) = 2 ∧
    ((demoOne.bookAppointment demoRegularTwin).1.reportEntries insertionSort).countP
      (fun e => decide (printedFields e = printedFields demoRegularTwin)) = 2 ∧
    ((demoOne.bookAppointment demoRegularTwin).1.reportEntries insertionSort).countP
      (fun e => decide (e.obj = demoRegularTwin.obj)) = 2 := by
  set_option maxRecDepth 100000 in
  exact ⟨reachable_demoOne, insertionSort_stdSort, by decide, by decide, by decide, by decide,
    by decide, by decide, by decide, by decide⟩

/-- C6, amended: for every clinic state and every appointment whose patientID and
doctorID are registered, after `bookAppointment` the report (under any sort meeting the
`std::sort` contract) prints the header and one line per listed appointment, and it lists
exactly one more entry matching the booked appointment than the report before the
booking did, whether entries are matched by their printed line or by their printed fields
(date, time, patient, doctor, type, priority); it lists exactly one such entry when no
stored appointment printed the same line, respectively had the same printed fields. -/
theorem C6_book_then_report
    (sort : (ApptRef → ApptRef → Bool) → List ApptRef → List ApptRef) (hs : StdSort sort)
    (c : Clinic) (appt : ApptRef)
    (hp : ∃ p ∈ c.patients, p.id = appt.obj.patientID)
    (hd : ∃ d ∈ c.doctors, d.id = appt.obj.doctorID) :
    ((c.bookAppointment appt).1.generateReport sort).2 =
      "\n--- Appointment Report ---\n" ++ String.join (((c.bookAppointment appt).1.reportEntries sort).map
      (fun a => a.obj.date ++ " " ++ a.obj.time ++ " | Patient: " ++ a.obj.patientID ++
        " | Doctor: " ++ a.obj.doctorID ++ " | " ++ a.obj.getType ++ " | Priority: " ++
        toString a.obj.getPriority ++ "\n")) ∧
    (((c.bookAppointment appt).1.reportEntries sort).map reportLine).count (reportLine appt) =
      ((c.reportEntries sort).map reportLine).count (reportLine appt) + 1 ∧
    ((c.bookAppointment appt).1.reportEntries sort).countP
        (fun e => decide (printedFields e = printedFields appt)) =
      (c.reportEntries sort).countP
        (fun e => decide (printedFields e = printedFields appt)) + 1 ∧
    ((∀ e ∈ c.appointments, reportLine e ≠ reportLine appt) →
      (((c.bookAppointment appt).1.reportEntries sort).map reportLine).count
        (reportLine appt) = 1) ∧
    ((∀ e ∈ c.appointments, printedFields e ≠ printedFields appt) →
      ((c.bookAppointment appt).1.reportEntries sort).countP
        (fun e => decide (printedFields e = printedFields appt)) = 1) := by
  have hline := countP_report_after_book sort hs c appt hp hd
    (fun e => reportLine e == reportLine appt) (by simp)
  have hfields := countP_report_after_book sort hs c appt hp hd
    (fun e => decide (printedFields e = printedFields appt)) (by simp)
  refine ⟨rfl, ?_, hfields, ?_, ?_⟩
  · rw [count_lines_eq_countP, count_lines_eq_countP]
    exact hline
  · intro hnone
    rw [count_lines_eq_countP, hline,
      countP_report_eq_zero sort hs c _ (fun e he => by simpa using hnone e he)]
  · intro hnone
    rw [hfields, countP_report_eq_zero sort hs c _ (fun e he => by simpa using hnone e he)]

theorem C6_book_then_report_witness :
    StdSort (insertionSort (α := ApptRef)) ∧
    (∃ p ∈ demoBase.patients, p.id = demoRegular.obj.patientID) ∧
    (∃ d ∈ demoBase.doctors, d.id = demoRegular.obj.doctorID) ∧
    (∀ e ∈ demoBase.appointments, reportLine e ≠ reportLine demoRegular) ∧
    (((demoBase.bookAppointment demoRegular).1.reportEntries insertionSort).map
      reportLine).count (reportLine demoRegular) = 1 ∧
    (∃ p ∈ demoOne.patients, p.id = demoRegularOtherReason.obj.patientID) ∧
    (∃ d ∈ demoOne.doctors, d.id = demoRegularOtherReason.obj.doctorID) ∧
    ((demoOne.reportEntries insertionSort).map reportLine).count
      (reportLine demoRegularOtherReason) = 1 ∧
    (((demoOne.bookAppointment demoRegularOtherReason).1.reportEntries insertionSort).map
      reportLine).count (reportLine demoRegularOtherReason) =
      ((demoOne.reportEntries insertionSort).map reportLine).count
        (reportLine demoRegularOtherReason) + 1 := by
  set_option maxRecDepth 100000 in
  exact ⟨insertionSort_stdSort, by decide, by decide, by decide,
    (C6_book_then_report insertionSort insertionSort_stdSort demoBase demoRegular
      (by decide) (by decide)).2.2.2.1 (by decide),
    by decide, by decide, by decide,
    (C6_book_then_report insertionSort insertionSort_stdSort demoOne demoRegularOtherReason
      (by decide) (by decide)).2.1⟩

/-! ## C7, C10: cancellation on any state -/

theorem cancelAppointment_of_found (c : Clinic) (pid did date time : String) (k : Nat)
    (a : ApptRef) (h : find_if (cancelMatch pid did date time) c.appointments = some (k, a)) :
    c.cancelAppointment pid did date time =
      ({ patients :=
           match c.findPatient pid with
           | some p => modifyAt (fun x => x.removeAppointment a.ptr) p c.patients
           | none => c.patients
         doctors :=
           match c.findDoctor did with
           | some d => modifyAt (fun x => x.removeAppointment a.ptr) d c.doctors
           | none => c.doctors
         appointments := c.appointments.eraseIdx k }, "Appointment cancelled.\n") := by
  simp only [Clinic.cancelAppointment, h]

theorem find_if_of_exists (c : Clinic) (pid did date time : String)
    (h : ∃ a ∈ c.appointments, FourFieldsEq pid did date time a) :
    ∃ k a, find_if (cancelMatch pid did date time) c.appointments = some (k, a) := by
  cases hf : find_if (cancelMatch pid did date time) c.appointments with
  | some r => exact ⟨r.1, r.2, rfl⟩
  | none =>
    obtain ⟨a, ha, hm⟩ := h
    have := (find_if_eq_none_iff _ _).1 hf a ha
    rw [(cancelMatch_iff pid did date time a).2 hm] at this
    exact absurd this (by decide)

/-- C7: if no stored appointment equals the criteria on all four fields,
`cancelAppointment` prints "Appointment not found." and returns the clinic state it was
given, whole; and it prints "Appointment not found." only when no stored appointment
equals the criteria on all four fields. -/
theorem C7_cancel_not_found (c : Clinic) (pid did date time : String) :
    ((∀ a ∈ c.appointments, ¬ FourFieldsEq pid did date time a) →
      c.cancelAppointment pid did date time = (c, "Appointment not found.\n")) ∧
    ((c.cancelAppointment pid did date time).2 = "Appointment not found.\n" →
      ∀ a ∈ c.appointments, ¬ FourFieldsEq pid did date time a) := by
  constructor
  · intro h
    have hf : find_if (cancelMatch pid did date time) c.appointments = none := by
      rw [find_if_eq_none_iff]
      intro a ha
      have := h a ha
      rw [← cancelMatch_iff] at this
      simpa using this
    simp only [Clinic.cancelAppointment, hf]
  · intro hout a ha hm
    obtain ⟨k, b, hf⟩ := find_if_of_exists c pid did date time ⟨a, ha, hm⟩
    rw [cancelAppointment_of_found c pid did date time k b hf] at hout
    have hne : "Appointment cancelled.\n" ≠ "Appointment not found.\n" := by decide
    exact hne hout

theorem C7_cancel_not_found_witness :
    (∀ a ∈ demoBooked.appointments, ¬ FourFieldsEq "P1" "D1" "2024-01-01" "12:00" a) ∧
    demoBooked.cancelAppointment "P1" "D1" "2024-01-01" "12:00" =
      (demoBooked, "Appointment not found.\n") :=
  ⟨by decide, (C7_cancel_not_found demoBooked "P1" "D1" "2024-01-01" "12:00").1 (by decide)⟩

/-- C10: when at least one stored appointment equals the criteria on all four fields,
`cancelAppointment` erases the first such appointment in collection order and nothing
else: the collection splits as `pre ++ a :: post` with `a` the first match, and becomes
`pre ++ post`; its length drops by exactly one, later duplicates stay, and the kept
appointments keep their relative order. -/
theorem C10_cancel_first_match_only (c : Clinic) (pid did date time : String)
    (h : ∃ a ∈ c.appointments, FourFieldsEq pid did date time a) :
    ∃ pre a post,
      c.appointments = pre ++ a :: post ∧
      FourFieldsEq pid did date time a ∧
      (∀ x ∈ pre, ¬ FourFieldsEq pid did date time x) ∧
      (c.cancelAppointment pid did date time).1.appointments = pre ++ post ∧
      (c.cancelAppointment pid did date time).1.appointments.length + 1 =
        c.appointments.length ∧
      (c.cancelAppointment pid did date time).1.appointments.Sublist c.appointments ∧
      (c.cancelAppointment pid did date time).2 = "Appointment cancelled.\n" := by
  obtain ⟨k, a, hf⟩ := find_if_of_exists c pid did date time h
  obtain ⟨pre, post, hl, -, hpa, hpre, her⟩ := find_if_some_spec _ _ _ _ hf
  rw [cancelAppointment_of_found c pid did date time k a hf]
  refine ⟨pre, a, post, hl, (cancelMatch_iff _ _ _ _ a).1 hpa, ?_, her, ?_, ?_, rfl⟩
  · intro x hx hm
    rw [← cancelMatch_iff, hpre x hx] at hm
    exact absurd hm (by decide)
  · rw [her, hl]
    simp only [List.length_append, List.length_cons]
    omega
  · exact List.eraseIdx_sublist _ _

theorem C10_cancel_first_match_only_witness :
    (∃ a ∈ demoTwins.appointments, FourFieldsEq "P1" "D1" "2024-01-01" "10:00" a) ∧
    (∃ pre a post,
      demoTwins.appointments = pre ++ a :: post ∧
      FourFieldsEq "P1" "D1" "2024-01-01" "10:00" a ∧
      (∀ x ∈ pre, ¬ FourFieldsEq "P1" "D1" "2024-01-01" "10:00" x) ∧
      (demoTwins.cancelAppointment "P1" "D1" "2024-01-01" "10:00").1.appointments =
        pre ++ post ∧
      (demoTwins.cancelAppointment "P1" "D1" "2024-01-01" "10:00").1.appointments.length + 1 =
        demoTwins.appointments.length ∧
      (demoTwins.cancelAppointment "P1" "D1" "2024-01-01" "10:00").1.appointments.Sublist
        demoTwins.appointments ∧
      (demoTwins.cancelAppointment "P1" "D1" "2024-01-01" "10:00").2 =
        "Appointment cancelled.\n") :=
  ⟨by decide, C10_cancel_first_match_only demoTwins "P1" "D1" "2024-01-01" "10:00" (by decide)⟩

/-! ## Consistency of reachable states -/

theorem findIndex_some_lt {α : Type} (pred : α → Bool) (l : List α) (i : Nat)
    (h : findIndex pred l = some i) : i < l.length := by
  obtain ⟨x, hx, -, -⟩ := findIndex_some_spec pred l i h
  exact (List.getElem?_eq_some.1 hx).1

theorem map_modifyAt_comm {α β : Type} (g : α → β) (f : α → α) (f2 : β → β)
    (hf : ∀ x, g (f x) = f2 (g x)) (i : Nat) (l : List α) :
    (modifyAt f i l).map g = modifyAt f2 i (l.map g) := by
  induction l generalizing i with
  | nil => cases i <;> simp [modifyAt]
  | cons x xs ih => cases i <;> simp [modifyAt, hf, ih]

theorem refsOK_addEntity (find find2 : String → Option Nat) (key : ApptRef → String)
    (refs : List (List Nat)) (appts : List ApptRef)
    (h : RefsOK find key refs appts)
    (hfound : ∀ a ∈ appts, ∃ i, find (key a) = some i ∧ i < refs.length)
    (hkeep : ∀ s i, find s = some i → find2 s = some i) :
    RefsOK find2 key (refs ++ [[]]) appts := by
  intro i r hi
  have hcongr : appts.filter (fun a => find2 (key a) == some i) =
      appts.filter (fun a => find (key a) == some i) := by
    apply List.filter_congr
    intro a ha
    obtain ⟨j, hj, -⟩ := hfound a ha
    rw [hkeep _ _ hj, hj]
  rw [hcongr]
  by_cases hlt : i < refs.length
  · rw [List.getElem?_append_left hlt] at hi
    exact h i r hi
  · have hle : refs.length ≤ i := Nat.le_of_not_lt hlt
    rw [List.getElem?_append_right hle] at hi
    have hr : r = [] := by
      cases hk : i - refs.length with
      | zero => rw [hk] at hi; simpa using hi.symm
      | succ k => rw [hk] at hi; simp at hi
    rw [hr]
    symm
    rw [List.map_eq_nil_iff, List.filter_eq_nil_iff]
    intro a ha
    obtain ⟨j, hj, hjlt⟩ := hfound a ha
    rw [hj]
    simp only [beq_iff_eq, Option.some.injEq]
    omega

theorem refsOK_book (find : String → Option Nat) (key : ApptRef → String)
    (refs : List (List Nat)) (appts : List ApptRef) (appt : ApptRef) (p : Nat)
    (h : RefsOK find key refs appts) (hp : find (key appt) = some p) :
    RefsOK find key (modifyAt (fun r => r ++ [appt.ptr]) p refs) (appts ++ [appt]) := by
  intro i r hi
  rw [getElem?_modifyAt] at hi
  by_cases hip : i = p
  · subst hip
    simp only [if_true] at hi
    cases hr : refs[i]? with
    | none => rw [hr] at hi; simp at hi
    | some r0 =>
      rw [hr] at hi
      simp only [Option.map_some', Option.some.injEq] at hi
      rw [← hi, h i r0 hr]
      simp [List.filter_append, List.filter_cons, hp]
  · simp only [hip, if_false] at hi
    rw [h i r hi]
    have hne : (find (key appt) == some i) = false := by
      rw [hp]
      simp only [beq_eq_false_iff_ne, ne_eq, Option.some.injEq]
      exact fun h => hip h.symm
    simp [List.filter_append, List.filter_cons, hne]

theorem filter_ne_map_ptr (sel : ApptRef → Bool) (l : List ApptRef) (n : Nat)
    (h : ∀ x ∈ l, x.ptr ≠ n) :
    ((l.filter sel).map (fun a => a.ptr)).filter (fun x => x != n) =
      (l.filter sel).map (fun a => a.ptr) := by
  rw [List.filter_eq_self]
  intro x hx
  obtain ⟨a, ha, rfl⟩ := List.mem_map.1 hx
  have := h a (List.mem_filter.1 ha).1
  simpa using this

theorem refsOK_cancel (find : String → Option Nat) (key : ApptRef → String)
    (refs : List (List Nat)) (pre post : List ApptRef) (a : ApptRef) (p : Nat)
    (h : RefsOK find key refs (pre ++ a :: post))
    (hnd : ((pre ++ a :: post).map (fun a => a.ptr)).Nodup)
    (hp : find (key a) = some p) :
    RefsOK find key (modifyAt (fun r => r.filter (fun x => x != a.ptr)) p refs)
      (pre ++ post) := by
  have hnd2 : ∀ x ∈ pre ++ post, x.ptr ≠ a.ptr := by
    intro x hx heq
    rw [List.map_append, List.map_cons] at hnd
    have hnot := (List.nodup_cons.1 (List.nodup_middle.1 hnd)).1
    apply hnot
    rw [← List.map_append, ← heq]
    exact List.mem_map_of_mem _ hx
  have hpre : ∀ x ∈ pre, x.ptr ≠ a.ptr := fun x hx => hnd2 x (List.mem_append_left _ hx)
  have hpost : ∀ x ∈ post, x.ptr ≠ a.ptr := fun x hx => hnd2 x (List.mem_append_right _ hx)
  intro i r hi
  rw [getElem?_modifyAt] at hi
  by_cases hip : i = p
  · subst hip
    simp only [if_true] at hi
    cases hr : refs[i]? with
    | none => rw [hr] at hi; simp at hi
    | some r0 =>
      rw [hr] at hi
      simp only [Option.map_some', Option.some.injEq] at hi
      rw [← hi, h i r0 hr]
      simp only [List.filter_append, List.filter_cons, hp, beq_self_eq_true, if_true,
        List.map_append, List.map_cons, bne_self_eq_false, Bool.false_eq_true, if_false]
      rw [filter_ne_map_ptr _ pre a.ptr hpre, filter_ne_map_ptr _ post a.ptr hpost]
  · simp only [hip, if_false] at hi
    rw [h i r hi]
    have hne : (find (key a) == some i) = false := by
      rw [hp]
      simp only [beq_eq_false_iff_ne, ne_eq, Option.some.injEq]
      exact fun h => hip h.symm
    simp [List.filter_append, List.filter_cons, hne]

theorem consistent_empty : Consistent Clinic.empty := by
  refine ⟨by simp [Clinic.empty], by simp [Clinic.empty], by simp [Clinic.empty], ?_, ?_⟩ <;>
  · intro i r hi
    simp [Clinic.empty] at hi

theorem findPatient_lt (c : Clinic) (s : String) (i : Nat) (h : c.findPatient s = some i) :
    i < (c.patients.map (fun p => p.appointments)).length := by
  rw [List.length_map]
  exact findIndex_some_lt _ _ _ h

theorem findDoctor_lt (c : Clinic) (s : String) (i : Nat) (h : c.findDoctor s = some i) :
    i < (c.doctors.map (fun d => d.appointments)).length := by
  rw [List.length_map]
  exact findIndex_some_lt _ _ _ h

theorem findPatient_addPatient_keep (c : Clinic) (name id s : String) (i : Nat)
    (h : c.findPatient s = some i) : (c.addPatient name id).1.findPatient s = some i := by
  unfold Clinic.findPatient at h
  simp only [Clinic.findPatient, Clinic.addPatient, findIndex_append, h]

theorem findDoctor_addDoctor_keep (c : Clinic) (name id spec s : String) (i : Nat)
    (h : c.findDoctor s = some i) : (c.addDoctor name id spec).1.findDoctor s = some i := by
  unfold Clinic.findDoctor at h
  simp only [Clinic.findDoctor, Clinic.addDoctor, findIndex_append, h]

theorem consistent_addPatient (c : Clinic) (name id : String) (hc : Consistent c) :
    Consistent (c.addPatient name id).1 := by
  obtain ⟨hnd, hpf, hdf, hpr, hdr⟩ := hc
  refine ⟨hnd, ?_, hdf, ?_, hdr⟩
  · intro a ha
    obtain ⟨i, hi⟩ := Option.ne_none_iff_exists'.1 (hpf a ha)
    rw [findPatient_addPatient_keep c name id _ i hi]
    simp
  · have h := refsOK_addEntity c.findPatient (c.addPatient name id).1.findPatient
      (fun a => a.obj.patientID) (c.patients.map (fun p => p.appointments)) c.appointments hpr
      (fun a ha => by
        obtain ⟨i, hi⟩ := Option.ne_none_iff_exists'.1 (hpf a ha)
        exact ⟨i, hi, findPatient_lt c _ i hi⟩)
      (fun s i hs => findPatient_addPatient_keep c name id s i hs)
    simpa [Clinic.addPatient, Patient.new] using h

theorem consistent_addDoctor (c : Clinic) (name id spec : String) (hc : Consistent c) :
    Consistent (c.addDoctor name id spec).1 := by
  obtain ⟨hnd, hpf, hdf, hpr, hdr⟩ := hc
  refine ⟨hnd, hpf, ?_, hpr, ?_⟩
  · intro a ha
    obtain ⟨i, hi⟩ := Option.ne_none_iff_exists'.1 (hdf a ha)
    rw [findDoctor_addDoctor_keep c name id spec _ i hi]
    simp
  · have h := refsOK_addEntity c.findDoctor (c.addDoctor name id spec).1.findDoctor
      (fun a => a.obj.doctorID) (c.doctors.map (fun d => d.appointments)) c.appointments hdr
      (fun a ha => by
        obtain ⟨i, hi⟩ := Option.ne_none_iff_exists'.1 (hdf a ha)
        exact ⟨i, hi, findDoctor_lt c _ i hi⟩)
      (fun s i hs => findDoctor_addDoctor_keep c name id spec s i hs)
    simpa [Clinic.addDoctor, Doctor.new] using h

theorem findPatient_congr (c c2 : Clinic)
    (h : c2.patients.map (fun p => p.id) = c.patients.map (fun p => p.id)) :
    c2.findPatient = c.findPatient := by
  funext s
  unfold Clinic.findPatient
  simp only [Patient.getID]
  have key : ∀ l l2 : List Patient, l2.map (fun p => p.id) = l.map (fun p => p.id) →
      findIndex (fun p => p.id == s) l2 = findIndex (fun p => p.id == s) l := by
    intro l
    induction l with
    | nil =>
      intro l2 h2
      simp only [List.map_nil, List.map_eq_nil_iff] at h2
      rw [h2]
    | cons x xs ih =>
      intro l2 h2
      cases l2 with
      | nil => simp at h2
      | cons y ys =>
        simp only [List.map_cons, List.cons.injEq] at h2
        simp only [findIndex, h2.1, ih ys h2.2]
  exact key _ _ h

theorem findDoctor_congr (c c2 : Clinic)
    (h : c2.doctors.map (fun d => d.id) = c.doctors.map (fun d => d.id)) :
    c2.findDoctor = c.findDoctor := by
  funext s
  unfold Clinic.findDoctor
  simp only [Doctor.getID]
  have key : ∀ l l2 : List Doctor, l2.map (fun d => d.id) = l.map (fun d => d.id) →
      findIndex (fun d => d.id == s) l2 = findIndex (fun d => d.id == s) l := by
    intro l
    induction l with
    | nil =>
      intro l2 h2
      simp only [List.map_nil, List.map_eq_nil_iff] at h2
      rw [h2]
    | cons x xs ih =>
      intro l2 h2
      cases l2 with
      | nil => simp at h2
      | cons y ys =>
        simp only [List.map_cons, List.cons.injEq] at h2
        simp only [findIndex, h2.1, ih ys h2.2]
  exact key _ _ h

theorem consistent_book (c : Clinic) (appt : ApptRef) (hc : Consistent c)
    (hfresh : ∀ a ∈ c.appointments, a.ptr ≠ appt.ptr) :
    Consistent (c.bookAppointment appt).1 := by
  cases hp : c.findPatient appt.obj.patientID with
  | none =>
    have : c.bookAppointment appt = (c, "Invalid patient or doctor ID.\n") := by
      simp only [Clinic.bookAppointment, Appointment.getPatientID, hp]
    rw [this]
    exact hc
  | some p =>
    cases hd : c.findDoctor appt.obj.doctorID with
    | none =>
      have : c.bookAppointment appt = (c, "Invalid patient or doctor ID.\n") := by
        simp only [Clinic.bookAppointment, Appointment.getPatientID, Appointment.getDoctorID,
          hp, hd]
      rw [this]
      exact hc
    | some d =>
      have hb : c.bookAppointment appt =
          ({ patients := modifyAt (fun x => x.addAppointment appt.ptr) p c.patients
             doctors := modifyAt (fun x => x.addAppointment appt.ptr) d c.doctors
             appointments := c.appointments ++ [appt] }, "Appointment booked.\n") := by
        simp only [Clinic.bookAppointment, Appointment.getPatientID, Appointment.getDoctorID,
          hp, hd]
      rw [hb]
      obtain ⟨hnd, hpf, hdf, hpr, hdr⟩ := hc
      have hfp := findPatient_congr c
        { patients := modifyAt (fun x => x.addAppointment appt.ptr) p c.patients
          doctors := modifyAt (fun x => x.addAppointment appt.ptr) d c.doctors
          appointments := c.appointments ++ [appt] }
        (map_modifyAt (fun x : Patient => x.id) (fun x => x.addAppointment appt.ptr)
          (fun _ => rfl) p c.patients)
      have hfd := findDoctor_congr c
        { patients := modifyAt (fun x => x.addAppointment appt.ptr) p c.patients
          doctors := modifyAt (fun x => x.addAppointment appt.ptr) d c.doctors
          appointments := c.appointments ++ [appt] }
        (map_modifyAt (fun x : Doctor => x.id) (fun x => x.addAppointment appt.ptr)
          (fun _ => rfl) d c.doctors)
      refine ⟨?_, ?_, ?_, ?_, ?_⟩
      · simp only [List.map_append, List.map_cons, List.map_nil]
        rw [List.nodup_append]
        refine ⟨hnd, by simp, ?_⟩
        intro x hx hx2
        simp only [List.mem_singleton] at hx2
        obtain ⟨a, ha, rfl⟩ := List.mem_map.1 hx
        exact hfresh a ha hx2
      · intro a ha
        rw [hfp]
        rcases List.mem_append.1 ha with ha | ha
        · exact hpf a ha
        · simp only [List.mem_singleton] at ha
          rw [ha, hp]
          simp
      · intro a ha
        rw [hfd]
        rcases List.mem_append.1 ha with ha | ha
        · exact hdf a ha
        · simp only [List.mem_singleton] at ha
          rw [ha, hd]
          simp
      · rw [hfp]
        simp only
        rw [map_modifyAt_comm (fun x : Patient => x.appointments)
          (fun x => x.addAppointment appt.ptr) (fun r => r ++ [appt.ptr]) (fun _ => rfl)]
        exact refsOK_book _ _ _ _ appt p hpr hp
      · rw [hfd]
        simp only
        rw [map_modifyAt_comm (fun x : Doctor => x.appointments)
          (fun x => x.addAppointment appt.ptr) (fun r => r ++ [appt.ptr]) (fun _ => rfl)]
        exact refsOK_book _ _ _ _ appt d hdr hd

theorem cancelAppointment_no_match (c : Clinic) (pid did date time : String)
    (h : ∀ a ∈ c.appointments, ¬ FourFieldsEq pid did date time a) :
    c.cancelAppointment pid did date time = (c, "Appointment not found.\n") := by
  have hf : find_if (cancelMatch pid did date time) c.appointments = none := by
    rw [find_if_eq_none_iff]
    intro a ha
    have := h a ha
    rw [← cancelMatch_iff] at this
    simpa using this
  simp only [Clinic.cancelAppointment, hf]

theorem cancelAppointment_split (c : Clinic) (pid did date time : String)
    (h : ∃ a ∈ c.appointments, FourFieldsEq pid did date time a) :
    ∃ pre a post,
      c.appointments = pre ++ a :: post ∧
      FourFieldsEq pid did date time a ∧
      (∀ x ∈ pre, ¬ FourFieldsEq pid did date time x) ∧
      c.cancelAppointment pid did date time =
        ({ patients :=
             match c.findPatient pid with
             | some p => modifyAt (fun x => x.removeAppointment a.ptr) p c.patients
             | none => c.patients
           doctors :=
             match c.findDoctor did with
             | some d => modifyAt (fun x => x.removeAppointment a.ptr) d c.doctors
             | none => c.doctors
           appointments := pre ++ post }, "Appointment cancelled.\n") := by
  obtain ⟨k, a, hf⟩ := find_if_of_exists c pid did date time h
  obtain ⟨pre, post, hl, -, hpa, hpre, her⟩ := find_if_some_spec _ _ _ _ hf
  refine ⟨pre, a, post, hl, (cancelMatch_iff _ _ _ _ a).1 hpa, ?_, ?_⟩
  · intro x hx hm
    rw [← cancelMatch_iff, hpre x hx] at hm
    exact Bool.false_ne_true hm
  · rw [cancelAppointment_of_found c pid did date time k a hf, her]

theorem consistent_cancel (c : Clinic) (pid did date time : String) (hc : Consistent c) :
    Consistent (c.cancelAppointment pid did date time).1 := by
  by_cases h : ∃ a ∈ c.appointments, FourFieldsEq pid did date time a
  · obtain ⟨pre, a, post, hl, hm, -, hcancel⟩ := cancelAppointment_split c pid did date time h
    obtain ⟨hnd, hpf, hdf, hpr, hdr⟩ := hc
    have ha : a ∈ c.appointments := by rw [hl]; simp
    obtain ⟨hpid, hdid, -, -⟩ := hm
    obtain ⟨p, hp⟩ := Option.ne_none_iff_exists'.1 (hpf a ha)
    obtain ⟨d, hd⟩ := Option.ne_none_iff_exists'.1 (hdf a ha)
    rw [hpid] at hp
    rw [hdid] at hd
    rw [hcancel, hp, hd]
    simp only
    have hfp := findPatient_congr c
      { patients := modifyAt (fun x => x.removeAppointment a.ptr) p c.patients
        doctors := modifyAt (fun x => x.removeAppointment a.ptr) d c.doctors
        appointments := pre ++ post }
      (map_modifyAt (fun x : Patient => x.id) (fun x => x.removeAppointment a.ptr)
        (fun _ => rfl) p c.patients)
    have hfd := findDoctor_congr c
      { patients := modifyAt (fun x => x.removeAppointment a.ptr) p c.patients
        doctors := modifyAt (fun x => x.removeAppointment a.ptr) d c.doctors
        appointments := pre ++ post }
      (map_modifyAt (fun x : Doctor => x.id) (fun x => x.removeAppointment a.ptr)
        (fun _ => rfl) d c.doctors)
    have hsub : ∀ x ∈ pre ++ post, x ∈ c.appointments := by
      intro x hx
      rw [hl]
      rcases List.mem_append.1 hx with hx | hx
      · exact List.mem_append_left _ hx
      · exact List.mem_append_right _ (List.mem_cons_of_mem _ hx)
    rw [hl] at hnd hpr hdr
    refine ⟨?_, ?_, ?_, ?_, ?_⟩
    · simp only [List.map_append, List.map_cons] at hnd ⊢
      exact (List.nodup_cons.1 (List.nodup_middle.1 hnd)).2
    · intro x hx
      rw [hfp]
      exact hpf x (hsub x hx)
    · intro x hx
      rw [hfd]
      exact hdf x (hsub x hx)
    · rw [hfp]
      simp only
      rw [map_modifyAt_comm (fun x : Patient => x.appointments)
        (fun x => x.removeAppointment a.ptr) (fun r => r.filter (fun x => x != a.ptr))
        (fun _ => rfl)]
      exact refsOK_cancel _ _ _ pre post a p hpr hnd (by rw [hpid]; exact hp)
    · rw [hfd]
      simp only
      rw [map_modifyAt_comm (fun x : Doctor => x.appointments)
        (fun x => x.removeAppointment a.ptr) (fun r => r.filter (fun x => x != a.ptr))
        (fun _ => rfl)]
      exact refsOK_cancel _ _ _ pre post a d hdr hnd (by rw [hdid]; exact hd)
  · have hno : ∀ a ∈ c.appointments, ¬ FourFieldsEq pid did date time a :=
      fun a ha hm => h ⟨a, ha, hm⟩
    rw [cancelAppointment_no_match c pid did date time hno]
    exact hc

theorem reachable_consistent (c : Clinic) (h : Reachable c) : Consistent c := by
  induction h with
  | empty => exact consistent_empty
  | addPatient name id _ ih => exact consistent_addPatient _ name id ih
  | addDoctor name id spec _ ih => exact consistent_addDoctor _ name id spec ih
  | book appt _ hfresh ih => exact consistent_book _ appt ih hfresh
  | cancel pid did date time _ ih => exact consistent_cancel _ pid did date time ih

theorem refsOK_subset (find : String → Option Nat) (key : ApptRef → String)
    (refs : List (List Nat)) (appts : List ApptRef) (h : RefsOK find key refs appts)
    (r : List Nat) (hr : r ∈ refs) (n : Nat) (hn : n ∈ r) :
    n ∈ appts.map (fun a => a.ptr) := by
  obtain ⟨i, hi⟩ := List.getElem?_of_mem hr
  rw [h i r hi] at hn
  obtain ⟨a, ha, rfl⟩ := List.mem_map.1 hn
  exact List.mem_map_of_mem _ (List.mem_filter.1 ha).1

/-! ## C8, C9: cancelling a booked appointment -/

/-- C8: in every state reachable from the empty clinic, a `cancelAppointment` call whose
four criteria match a stored appointment removes the first match `a` from the collection
(which becomes `pre ++ post`): afterwards no stored appointment is `a` or lives at its
address, and no patient's list and no doctor's list holds the address of `a`. -/
theorem C8_cancel_removes_references (c : Clinic) (hr : Reachable c)
    (pid did date time : String)
    (h : ∃ a ∈ c.appointments, FourFieldsEq pid did date time a) :
    ∃ pre a post,
      c.appointments = pre ++ a :: post ∧
      FourFieldsEq pid did date time a ∧
      (∀ x ∈ pre, ¬ FourFieldsEq pid did date time x) ∧
      (c.cancelAppointment pid did date time).2 = "Appointment cancelled.\n" ∧
      (c.cancelAppointment pid did date time).1.appointments = pre ++ post ∧
      a ∉ (c.cancelAppointment pid did date time).1.appointments ∧
      (∀ x ∈ (c.cancelAppointment pid did date time).1.appointments, x.ptr ≠ a.ptr) ∧
      (∀ q ∈ (c.cancelAppointment pid did date time).1.patients, a.ptr ∉ q.appointments) ∧
      (∀ q ∈ (c.cancelAppointment pid did date time).1.doctors, a.ptr ∉ q.appointments) := by
  have hc := reachable_consistent c hr
  have hc2 := consistent_cancel c pid did date time hc
  obtain ⟨pre, a, post, hl, hm, hpre, hcancel⟩ := cancelAppointment_split c pid did date time h
  have happ : (c.cancelAppointment pid did date time).1.appointments = pre ++ post := by
    rw [hcancel]
  have hout : (c.cancelAppointment pid did date time).2 = "Appointment cancelled.\n" := by
    rw [hcancel]
  have hnd := hc.1
  rw [hl, List.map_append, List.map_cons] at hnd
  have hnot : a.ptr ∉ (pre ++ post).map (fun x => x.ptr) := by
    rw [List.map_append]
    exact (List.nodup_cons.1 (List.nodup_middle.1 hnd)).1
  obtain ⟨-, -, -, hpr, hdr⟩ := hc2
  rw [happ] at hpr hdr
  refine ⟨pre, a, post, hl, hm, hpre, hout, happ, ?_, ?_, ?_, ?_⟩
  · rw [happ]
    exact fun hmem => hnot (List.mem_map_of_mem _ hmem)
  · rw [happ]
    intro x hx heq
    apply hnot
    rw [← heq]
    exact List.mem_map_of_mem _ hx
  · intro q hq hmem
    exact hnot (refsOK_subset _ _ _ _ hpr q.appointments
      (List.mem_map_of_mem (fun p => p.appointments) hq) a.ptr hmem)
  · intro q hq hmem
    exact hnot (refsOK_subset _ _ _ _ hdr q.appointments
      (List.mem_map_of_mem (fun d => d.appointments) hq) a.ptr hmem)

theorem C8_cancel_removes_references_witness :
    Reachable demoBooked ∧
    (∃ a ∈ demoBooked.appointments, FourFieldsEq "P1" "D1" "2024-01-01" "10:00" a) ∧
    (∃ pre a post,
      demoBooked.appointments = pre ++ a :: post ∧
      FourFieldsEq "P1" "D1" "2024-01-01" "10:00" a ∧
      (∀ x ∈ pre, ¬ FourFieldsEq "P1" "D1" "2024-01-01" "10:00" x) ∧
      (demoBooked.cancelAppointment "P1" "D1" "2024-01-01" "10:00").2 =
        "Appointment cancelled.\n" ∧
      (demoBooked.cancelAppointment "P1" "D1" "2024-01-01" "10:00").1.appointments =
        pre ++ post ∧
      a ∉ (demoBooked.cancelAppointment "P1" "D1" "2024-01-01" "10:00").1.appointments ∧
      (∀ x ∈ (demoBooked.cancelAppointment "P1" "D1" "2024-01-01" "10:00").1.appointments,
        x.ptr ≠ a.ptr) ∧
      (∀ q ∈ (demoBooked.cancelAppointment "P1" "D1" "2024-01-01" "10:00").1.patients,
        a.ptr ∉ q.appointments) ∧
      (∀ q ∈ (demoBooked.cancelAppointment "P1" "D1" "2024-01-01" "10:00").1.doctors,
        a.ptr ∉ q.appointments)) :=
  ⟨reachable_demoBooked, by decide,
    C8_cancel_removes_references demoBooked reachable_demoBooked "P1" "D1" "2024-01-01" "10:00"
      (by decide)⟩

/-- C9 as stated fails: the double-booked scenario clinic is reachable and stores two
appointments with the same four fields; the first `cancelAppointment` succeeds, and the
second call with the same criteria succeeds again (it cancels the twin and empties the
collection) instead of reporting "Appointment not found.". -/
theorem C9_counterexample :
    Reachable demoTwins ∧
    (demoTwins.cancelAppointment "P1" "D1" "2024-01-01" "10:00").2 =
      "Appointment cancelled.\n" ∧
    (demoTwins.cancelAppointment "P1" "D1" "2024-01-01" "10:00").1.appointments =
      [demoRegularTwin] ∧
    ((demoTwins.cancelAppointment "P1" "D1" "2024-01-01" "10:00").1.cancelAppointment
      "P1" "D1" "2024-01-01" "10:00").2 = "Appointment cancelled.\n" ∧
    ((demoTwins.cancelAppointment "P1" "D1" "2024-01-01" "10:00").1.cancelAppointment
      "P1" "D1" "2024-01-01" "10:00").1.appointments = [] ∧
    ((demoTwins.cancelAppointment "P1" "D1" "2024-01-01" "10:00").1.cancelAppointment
      "P1" "D1" "2024-01-01" "10:00") ≠
      ((demoTwins.cancelAppointment "P1" "D1" "2024-01-01" "10:00").1,
        "Appointment not found.\n") :=
  ⟨reachable_demoTwins, by decide, by decide, by decide, by decide, by decide⟩

theorem find_if_append_cons {α : Type} (pred : α → Bool) (l1 : List α) (b : α)
    (l2 : List α) (hl : ∀ x ∈ l1, pred x = false) (hb : pred b = true) :
    find_if pred (l1 ++ b :: l2) = some (l1.length, b) := by
  induction l1 with
  | nil => simp [find_if, hb]
  | cons x xs ih =>
    have hx : pred x = false := hl x (by simp)
    have hxs : ∀ y ∈ xs, pred y = false := fun y hy => hl y (List.mem_cons_of_mem _ hy)
    simp [find_if, hx, ih hxs]

theorem first_match_split {α : Type} (pred : α → Bool) (l : List α)
    (h : ∃ x ∈ l, pred x = true) :
    ∃ mid b post, l = mid ++ b :: post ∧ pred b = true ∧ ∀ x ∈ mid, pred x = false := by
  cases hf : find_if pred l with
  | none =>
    obtain ⟨x, hx, hpx⟩ := h
    have := (find_if_eq_none_iff pred l).1 hf x hx
    rw [hpx] at this
    exact absurd this (by simp)
  | some r =>
    obtain ⟨mid, post, hl, -, hp, hmid, -⟩ := find_if_some_spec pred l r.1 r.2 hf
    exact ⟨mid, r.2, post, hl, hp, hmid⟩

theorem eraseIdx_append_cons {α : Type} (l1 : List α) (b : α) (l2 : List α) :
    (l1 ++ b :: l2).eraseIdx l1.length = l1 ++ l2 := by
  induction l1 with
  | nil => simp
  | cons x xs ih => simp [ih]

/-- C9, amended: what a second `cancelAppointment` call with the same four criteria does
after a successful first one depends on how many stored appointments matched.  When
exactly one matched, the second call prints "Appointment not found." and changes nothing.
When two or more matched, the first call erases the first match `a` and the second call
succeeds as well and erases the next match `b` in collection order, keeping everything
else. -/
theorem C9_second_cancel (c : Clinic) (pid did date time : String) :
    (c.appointments.countP (fun a => decide (FourFieldsEq pid did date time a)) = 1 →
      (c.cancelAppointment pid did date time).2 = "Appointment cancelled.\n" ∧
      (c.cancelAppointment pid did date time).1.cancelAppointment pid did date time =
        ((c.cancelAppointment pid did date time).1, "Appointment not found.\n")) ∧
    (2 ≤ c.appointments.countP (fun a => decide (FourFieldsEq pid did date time a)) →
      ∃ pre a mid b post,
        c.appointments = pre ++ a :: (mid ++ b :: post) ∧
        FourFieldsEq pid did date time a ∧ FourFieldsEq pid did date time b ∧
        (∀ x ∈ pre, ¬ FourFieldsEq pid did date time x) ∧
        (∀ x ∈ mid, ¬ FourFieldsEq pid did date time x) ∧
        (c.cancelAppointment pid did date time).2 = "Appointment cancelled.\n" ∧
        (c.cancelAppointment pid did date time).1.appointments = pre ++ (mid ++ b :: post) ∧
        ((c.cancelAppointment pid did date time).1.cancelAppointment pid did date time).2 =
          "Appointment cancelled.\n" ∧
        ((c.cancelAppointment pid did date time).1.cancelAppointment pid did date
          time).1.appointments = pre ++ (mid ++ post)) := by
  have hex : 0 < c.appointments.countP (fun a => decide (FourFieldsEq pid did date time a)) →
      ∃ a ∈ c.appointments, FourFieldsEq pid did date time a := by
    intro hpos
    obtain ⟨a, ha, hm⟩ := List.countP_pos_iff.1 hpos
    exact ⟨a, ha, by simpa using hm⟩
  constructor
  · intro h
    obtain ⟨pre, a, post, hl, hm, hpre, hcancel⟩ :=
      cancelAppointment_split c pid did date time (hex (by omega))
    have hpre0 : pre.countP (fun a => decide (FourFieldsEq pid did date time a)) = 0 := by
      rw [List.countP_eq_zero]
      intro x hx
      simpa using hpre x hx
    have hpost0 : post.countP (fun a => decide (FourFieldsEq pid did date time a)) = 0 := by
      rw [hl, List.countP_append, List.countP_cons, hpre0] at h
      simp only [hm, decide_True, if_true] at h
      omega
    have happ : (c.cancelAppointment pid did date time).1.appointments = pre ++ post := by
      rw [hcancel]
    refine ⟨by rw [hcancel], ?_⟩
    apply cancelAppointment_no_match
    rw [happ]
    intro x hx
    rcases List.mem_append.1 hx with hx | hx
    · exact hpre x hx
    · have := List.countP_eq_zero.1 hpost0 x hx
      simpa using this
  · intro h
    obtain ⟨pre, a, rest, hl, hm, hpre, hcancel⟩ :=
      cancelAppointment_split c pid did date time (hex (by omega))
    have hpre0 : pre.countP (fun a => decide (FourFieldsEq pid did date time a)) = 0 := by
      rw [List.countP_eq_zero]
      intro x hx
      simpa using hpre x hx
    have hrest : 0 < rest.countP (fun a => decide (FourFieldsEq pid did date time a)) := by
      rw [hl, List.countP_append, List.countP_cons, hpre0] at h
      simp only [hm, decide_True, if_true] at h
      omega
    obtain ⟨x, hx, hxm⟩ := List.countP_pos_iff.1 hrest
    have hxm2 : cancelMatch pid did date time x = true := by
      rw [cancelMatch_iff]
      simpa using hxm
    obtain ⟨mid, b, post, hrl, hb, hmid⟩ :=
      first_match_split (cancelMatch pid did date time) rest ⟨x, hx, hxm2⟩
    have hnot : ∀ y, cancelMatch pid did date time y = false →
        ¬ FourFieldsEq pid did date time y := by
      intro y hy hmy
      rw [← cancelMatch_iff, hy] at hmy
      exact Bool.false_ne_true hmy
    have happ : (c.cancelAppointment pid did date time).1.appointments =
        (pre ++ mid) ++ b :: post := by
      rw [hcancel, hrl]
      simp
    have hfind : find_if (cancelMatch pid did date time)
        (c.cancelAppointment pid did date time).1.appointments =
        some ((pre ++ mid).length, b) := by
      rw [happ]
      apply find_if_append_cons _ _ _ _ _ hb
      intro y hy
      rcases List.mem_append.1 hy with hy | hy
      · have := hpre y hy
        rw [← cancelMatch_iff] at this
        simpa using this
      · exact hmid y hy
    have h2 := cancelAppointment_of_found (c.cancelAppointment pid did date time).1 pid did
      date time (pre ++ mid).length b hfind
    refine ⟨pre, a, mid, b, post, by rw [hl, hrl], hm, (cancelMatch_iff _ _ _ _ b).1 hb, hpre,
      fun y hy => hnot y (hmid y hy), by rw [hcancel], by rw [happ]; simp, by rw [h2], ?_⟩
    rw [h2]
    simp only
    rw [happ, eraseIdx_append_cons]
    simp

theorem C9_second_cancel_witness :
    (demoBooked.appointments.countP
      (fun a => decide (FourFieldsEq "P1" "D1" "2024-01-01" "10:00" a)) = 1 ∧
    ((demoBooked.cancelAppointment "P1" "D1" "2024-01-01" "10:00").2 =
      "Appointment cancelled.\n" ∧
    (demoBooked.cancelAppointment "P1" "D1" "2024-01-01" "10:00").1.cancelAppointment
      "P1" "D1" "2024-01-01" "10:00" =
      ((demoBooked.cancelAppointment "P1" "D1" "2024-01-01" "10:00").1,
        "Appointment not found.\n"))) ∧
    (2 ≤ demoTwins.appointments.countP
      (fun a => decide (FourFieldsEq "P1" "D1" "2024-01-01" "10:00" a)) ∧
    ∃ pre a mid b post,
      demoTwins.appointments = pre ++ a :: (mid ++ b :: post) ∧
      FourFieldsEq "P1" "D1" "2024-01-01" "10:00" a ∧
      FourFieldsEq "P1" "D1" "2024-01-01" "10:00" b ∧
      (∀ x ∈ pre, ¬ FourFieldsEq "P1" "D1" "2024-01-01" "10:00" x) ∧
      (∀ x ∈ mid, ¬ FourFieldsEq "P1" "D1" "2024-01-01" "10:00" x) ∧
      (demoTwins.cancelAppointment "P1" "D1" "2024-01-01" "10:00").2 =
        "Appointment cancelled.\n" ∧
      (demoTwins.cancelAppointment "P1" "D1" "2024-01-01" "10:00").1.appointments =
        pre ++ (mid ++ b :: post) ∧
      ((demoTwins.cancelAppointment "P1" "D1" "2024-01-01" "10:00").1.cancelAppointment
        "P1" "D1" "2024-01-01" "10:00").2 = "Appointment cancelled.\n" ∧
      ((demoTwins.cancelAppointment "P1" "D1" "2024-01-01" "10:00").1.cancelAppointment
        "P1" "D1" "2024-01-01" "10:00").1.appointments = pre ++ (mid ++ post)) :=
  ⟨⟨by decide, (C9_second_cancel demoBooked "P1" "D1" "2024-01-01" "10:00").1 (by decide)⟩,
    ⟨by decide, (C9_second_cancel demoTwins "P1" "D1" "2024-01-01" "10:00").2 (by decide)⟩⟩

/-! ## C11, C12: lookup and registration -/

theorem findIndex_eq_some_iff {α : Type} (pred : α → Bool) (l : List α) (i : Nat) :
    findIndex pred l = some i ↔
      ∃ x, l[i]? = some x ∧ pred x = true ∧
        ∀ j y, j < i → l[j]? = some y → pred y = false := by
  constructor
  · exact findIndex_some_spec pred l i
  · rintro ⟨x, hx, hpx, hmin⟩
    cases hk : findIndex pred l with
    | none =>
      have := (findIndex_eq_none_iff pred l).1 hk x (List.getElem?_mem hx)
      rw [hpx] at this
      exact absurd this (by simp)
    | some k =>
      obtain ⟨y, hy, hpy, hmink⟩ := findIndex_some_spec pred l k hk
      rcases Nat.lt_trichotomy k i with hlt | heq | hgt
      · have := hmin k y hlt hy
        rw [hpy] at this
        exact absurd this (by simp)
      · rw [heq]
      · have := hmink i x hgt hx
        rw [hpx] at this
        exact absurd this (by simp)

/-- C11: `findPatient(id)` returns not-found exactly when no registered patient has that
id, and otherwise returns the position of the earliest-added patient with that id (the
patient there has the id and no patient before it has); the same holds for `findDoctor`
over the doctors. -/
theorem C11_find_first_match (c : Clinic) (id : String) :
    (c.findPatient id = none ↔ ∀ p ∈ c.patients, p.id ≠ id) ∧
    (∀ i, c.findPatient id = some i ↔
      ∃ p, c.patients[i]? = some p ∧ p.id = id ∧
        ∀ j q, j < i → c.patients[j]? = some q → q.id ≠ id) ∧
    (c.findDoctor id = none ↔ ∀ d ∈ c.doctors, d.id ≠ id) ∧
    (∀ i, c.findDoctor id = some i ↔
      ∃ d, c.doctors[i]? = some d ∧ d.id = id ∧
        ∀ j q, j < i → c.doctors[j]? = some q → q.id ≠ id) := by
  refine ⟨findPatient_eq_none_iff c id, ?_, findDoctor_eq_none_iff c id, ?_⟩
  · intro i
    unfold Clinic.findPatient
    rw [findIndex_eq_some_iff]
    simp
  · intro i
    unfold Clinic.findDoctor
    rw [findIndex_eq_some_iff]
    simp

/-- C12: `addPatient(name, id)` appends a new patient with an empty reference list at the
end of the patient vector and touches nothing else, whether or not the id is already in
use; afterwards `findPatient(id)` finds a patient, and every id that `findPatient`
resolved before resolves to the same position, holding the same patient.  The same holds
for `addDoctor` and `findDoctor`. -/
theorem C12_add_entity (c : Clinic) (name id spec : String) :
    ((c.addPatient name id).1.patients =
        c.patients ++ [{ name := name, id := id, appointments := [] }] ∧
      (c.addPatient name id).1.doctors = c.doctors ∧
      (c.addPatient name id).1.appointments = c.appointments ∧
      (c.addPatient name id).1.findPatient id ≠ none ∧
      (∀ s i, c.findPatient s = some i →
        (c.addPatient name id).1.findPatient s = some i ∧
        (c.addPatient name id).1.patients[i]? = c.patients[i]?)) ∧
    ((c.addDoctor name id spec).1.doctors =
        c.doctors ++ [{ name := name, id := id, specialty := spec, appointments := [] }] ∧
      (c.addDoctor name id spec).1.patients = c.patients ∧
      (c.addDoctor name id spec).1.appointments = c.appointments ∧
      (c.addDoctor name id spec).1.findDoctor id ≠ none ∧
      (∀ s i, c.findDoctor s = some i →
        (c.addDoctor name id spec).1.findDoctor s = some i ∧
        (c.addDoctor name id spec).1.doctors[i]? = c.doctors[i]?)) := by
  refine ⟨⟨rfl, rfl, rfl, ?_, ?_⟩, ⟨rfl, rfl, rfl, ?_, ?_⟩⟩
  · rw [Ne, findPatient_eq_none_iff]
    intro h
    exact h (Patient.new name id) (by simp [Clinic.addPatient]) rfl
  · intro s i hs
    refine ⟨findPatient_addPatient_keep c name id s i hs, ?_⟩
    have hlt := findIndex_some_lt _ _ _ hs
    simp only [Clinic.addPatient]
    exact List.getElem?_append_left hlt
  · rw [Ne, findDoctor_eq_none_iff]
    intro h
    exact h (Doctor.new name id spec) (by simp [Clinic.addDoctor]) rfl
  · intro s i hs
    refine ⟨findDoctor_addDoctor_keep c name id spec s i hs, ?_⟩
    have hlt := findIndex_some_lt _ _ _ hs
    simp only [Clinic.addDoctor]
    exact List.getElem?_append_left hlt

theorem C12_add_entity_witness :
    demoBase.findPatient "P1" = some 0 ∧
    (demoBase.addPatient "Carol" "P1").1.findPatient "P1" = some 0 ∧
    (demoBase.addPatient "Carol" "P1").1.patients[0]? = demoBase.patients[0]? :=
  ⟨by decide,
    ((C12_add_entity demoBase "Carol" "P1" "Cardiology").1.2.2.2.2 "P1" 0 (by decide)).1,
    ((C12_add_entity demoBase "Carol" "P1" "Cardiology").1.2.2.2.2 "P1" 0 (by decide)).2⟩

/-! ## C13: removeAppointment -/

theorem filter_bne_eq_erase (l : List Nat) (a : Nat) (h : l.count a ≤ 1) :
    l.filter (fun x => x != a) = l.erase a := by
  induction l with
  | nil => simp
  | cons x xs ih =>
    by_cases hxa : x = a
    · subst hxa
      have h0 : xs.count x = 0 := by
        simp only [List.count_cons_self] at h
        omega
      have hnot : x ∉ xs := List.count_eq_zero.1 h0
      have hself : xs.filter (fun y => y != x) = xs := by
        rw [List.filter_eq_self]
        intro y hy
        have : y ≠ x := fun hyx => hnot (hyx ▸ hy)
        simpa using this
      simp [List.filter_cons, hself]
    · have hc : xs.count a ≤ 1 := by
        rw [List.count_cons_of_ne (Ne.symm hxa)] at h
        exact h
      have hne : (x != a) = true := by simpa using hxa
      have hbeq : (x == a) = false := by simpa using hxa
      rw [List.filter_cons, hne, if_pos rfl, ih hc, List.erase_cons, hbeq]
      rfl

theorem filter_bne_facts (l : List Nat) (ref : Nat) :
    ref ∉ l.filter (fun x => x != ref) ∧
    (l.filter (fun x => x != ref)).Sublist l ∧
    (∀ x, x ≠ ref → (l.filter (fun y => y != ref)).count x = l.count x) ∧
    (l.count ref ≤ 1 → l.filter (fun x => x != ref) = l.erase ref) ∧
    (ref ∉ l → l.filter (fun x => x != ref) = l) := by
  refine ⟨?_, List.filter_sublist l, ?_, filter_bne_eq_erase l ref, ?_⟩
  · simp [List.mem_filter]
  · intro x hx
    rw [List.count_filter]
    simpa using hx
  · intro hnot
    rw [List.filter_eq_self]
    intro y hy
    have : y ≠ ref := fun hyr => hnot (hyr ▸ hy)
    simpa using this

/-- C13 as stated fails: on a reference list that holds the address 1 twice,
`removeAppointment(1)` removes both occurrences (`[1, 2, 1]` becomes `[2]`), whereas
removing the first matching reference and leaving every other entry in place would give
`[2, 1]`.  The same holds for `Doctor::removeAppointment`. -/
theorem C13_counterexample :
    (demoRepeatedRefs.removeAppointment 1).appointments = [2] ∧
    demoRepeatedRefs.appointments.erase 1 = [2, 1] ∧
    (demoRepeatedRefs.removeAppointment 1).appointments ≠
      demoRepeatedRefs.appointments.erase 1 ∧
    (demoRepeatedRefsDoctor.removeAppointment 1).appointments = [2] ∧
    (demoRepeatedRefsDoctor.removeAppointment 1).appointments ≠
      demoRepeatedRefsDoctor.appointments.erase 1 :=
  ⟨by decide, by decide, by decide, by decide, by decide⟩

/-- C13, amended: `Patient::removeAppointment(ref)` and `Doctor::removeAppointment(ref)`
remove every reference equal to `ref`: afterwards `ref` is absent, the other entries are
all kept, as often as before and in their original order, and name, id and specialty are
untouched.  When the list holds `ref` at most once this is the removal of the first (the
only) match, and when `ref` is not present the entity is unchanged. -/
theorem C13_removeAppointment_all (p : Patient) (d : Doctor) (ref : Nat) :
    ((p.removeAppointment ref).name = p.name ∧
      (p.removeAppointment ref).id = p.id ∧
      ref ∉ (p.removeAppointment ref).appointments ∧
      (p.removeAppointment ref).appointments.Sublist p.appointments ∧
      (∀ x, x ≠ ref → (p.removeAppointment ref).appointments.count x = p.appointments.count x) ∧
      (p.appointments.count ref ≤ 1 →
        (p.removeAppointment ref).appointments = p.appointments.erase ref) ∧
      (ref ∉ p.appointments → p.removeAppointment ref = p)) ∧
    ((d.removeAppointment ref).name = d.name ∧
      (d.removeAppointment ref).id = d.id ∧
      (d.removeAppointment ref).specialty = d.specialty ∧
      ref ∉ (d.removeAppointment ref).appointments ∧
      (d.removeAppointment ref).appointments.Sublist d.appointments ∧
      (∀ x, x ≠ ref → (d.removeAppointment ref).appointments.count x = d.appointments.count x) ∧
      (d.appointments.count ref ≤ 1 →
        (d.removeAppointment ref).appointments = d.appointments.erase ref) ∧
      (ref ∉ d.appointments → d.removeAppointment ref = d)) := by
  obtain ⟨h1, h2, h3, h4, h5⟩ := filter_bne_facts p.appointments ref
  obtain ⟨g1, g2, g3, g4, g5⟩ := filter_bne_facts d.appointments ref
  refine ⟨⟨rfl, rfl, h1, h2, h3, h4, ?_⟩, ⟨rfl, rfl, rfl, g1, g2, g3, g4, ?_⟩⟩
  · intro hnot
    cases p
    simp only [Patient.removeAppointment, Patient.mk.injEq, true_and]
    exact h5 hnot
  · intro hnot
    cases d
    simp only [Doctor.removeAppointment, Doctor.mk.injEq, true_and]
    exact g5 hnot

theorem C13_removeAppointment_all_witness :
    (demoRepeatedRefs.appointments.count 2 ≤ 1 ∧
      (demoRepeatedRefs.removeAppointment 2).appointments =
        demoRepeatedRefs.appointments.erase 2) ∧
    (7 ∉ demoRepeatedRefs.appointments ∧
      demoRepeatedRefs.removeAppointment 7 = demoRepeatedRefs) :=
  ⟨⟨by decide,
      (C13_removeAppointment_all demoRepeatedRefs demoRepeatedRefsDoctor 2).1.2.2.2.2.2.1
        (by decide)⟩,
    ⟨by decide,
      (C13_removeAppointment_all demoRepeatedRefs demoRepeatedRefsDoctor 7).1.2.2.2.2.2.2
        (by decide)⟩⟩

/-! ## The shape of the two mutating operations -/

theorem bookAppointment_cases (c : Clinic) (appt : ApptRef) :
    c.bookAppointment appt = (c, "Invalid patient or doctor ID.\n") ∨
    ∃ p d, c.findPatient appt.obj.patientID = some p ∧
      c.findDoctor appt.obj.doctorID = some d ∧
      c.bookAppointment appt =
        ({ patients := modifyAt (fun x => x.addAppointment appt.ptr) p c.patients
           doctors := modifyAt (fun x => x.addAppointment appt.ptr) d c.doctors
           appointments := c.appointments ++ [appt] }, "Appointment booked.\n") := by
  cases hp : c.findPatient appt.obj.patientID with
  | none =>
    left
    simp only [Clinic.bookAppointment, Appointment.getPatientID, hp]
  | some p =>
    cases hd : c.findDoctor appt.obj.doctorID with
    | none =>
      left
      simp only [Clinic.bookAppointment, Appointment.getPatientID, Appointment.getDoctorID,
        hp, hd]
    | some d =>
      right
      refine ⟨p, d, rfl, rfl, ?_⟩
      simp only [Clinic.bookAppointment, Appointment.getPatientID, Appointment.getDoctorID,
        hp, hd]

theorem cancelAppointment_cases (c : Clinic) (pid did date time : String) :
    c.cancelAppointment pid did date time = (c, "Appointment not found.\n") ∨
    ∃ pre a post,
      c.appointments = pre ++ a :: post ∧
      c.cancelAppointment pid did date time =
        ({ patients :=
             match c.findPatient pid with
             | some p => modifyAt (fun x => x.removeAppointment a.ptr) p c.patients
             | none => c.patients
           doctors :=
             match c.findDoctor did with
             | some d => modifyAt (fun x => x.removeAppointment a.ptr) d c.doctors
             | none => c.doctors
           appointments := pre ++ post }, "Appointment cancelled.\n") := by
  by_cases h : ∃ a ∈ c.appointments, FourFieldsEq pid did date time a
  · obtain ⟨pre, a, post, hl, -, -, hcancel⟩ := cancelAppointment_split c pid did date time h
    exact Or.inr ⟨pre, a, post, hl, hcancel⟩
  · exact Or.inl (cancelAppointment_no_match c pid did date time
      (fun a ha hm => h ⟨a, ha, hm⟩))

theorem bookAppointment_map_patients {β : Type} (g : Patient → β)
    (hg : ∀ x r, g (x.addAppointment r) = g x) (c : Clinic) (appt : ApptRef) :
    (c.bookAppointment appt).1.patients.map g = c.patients.map g := by
  rcases bookAppointment_cases c appt with h | ⟨p, d, -, -, h⟩
  · rw [h]
  · rw [h]
    exact map_modifyAt g _ (fun x => hg x appt.ptr) p c.patients

theorem bookAppointment_map_doctors {β : Type} (g : Doctor → β)
    (hg : ∀ x r, g (x.addAppointment r) = g x) (c : Clinic) (appt : ApptRef) :
    (c.bookAppointment appt).1.doctors.map g = c.doctors.map g := by
  rcases bookAppointment_cases c appt with h | ⟨p, d, -, -, h⟩
  · rw [h]
  · rw [h]
    exact map_modifyAt g _ (fun x => hg x appt.ptr) d c.doctors

theorem cancelAppointment_map_patients {β : Type} (g : Patient → β)
    (hg : ∀ x r, g (x.removeAppointment r) = g x) (c : Clinic) (pid did date time : String) :
    (c.cancelAppointment pid did date time).1.patients.map g = c.patients.map g := by
  rcases cancelAppointment_cases c pid did date time with h | ⟨pre, a, post, -, h⟩
  · rw [h]
  · rw [h]
    cases c.findPatient pid with
    | none => rfl
    | some p => exact map_modifyAt g _ (fun x => hg x a.ptr) p c.patients

theorem cancelAppointment_map_doctors {β : Type} (g : Doctor → β)
    (hg : ∀ x r, g (x.removeAppointment r) = g x) (c : Clinic) (pid did date time : String) :
    (c.cancelAppointment pid did date time).1.doctors.map g = c.doctors.map g := by
  rcases cancelAppointment_cases c pid did date time with h | ⟨pre, a, post, -, h⟩
  · rw [h]
  · rw [h]
    cases c.findDoctor did with
    | none => rfl
    | some d => exact map_modifyAt g _ (fun x => hg x a.ptr) d c.doctors

theorem registered_patient_iff (c : Clinic) (s : String) :
    (∃ p ∈ c.patients, p.id = s) ↔ s ∈ c.patients.map (fun p => p.id) := by
  simp [List.mem_map]

theorem registered_doctor_iff (c : Clinic) (s : String) :
    (∃ d ∈ c.doctors, d.id = s) ↔ s ∈ c.doctors.map (fun d => d.id) := by
  simp [List.mem_map]

/-! ## C14: Emergency before Regular -/

theorem sorted_pair_of_perm (l : List ApptRef) (r e : ApptRef)
    (hperm : l.Perm [r, e])
    (hsorted : l.Pairwise (fun a b => reportLess b a = false))
    (hlt : reportLess e r = true) : l = [e, r] := by
  have hlen := hperm.length_eq
  have hne : r ≠ e := by
    intro h
    rw [h] at hlt
    rw [reportLess_strictWeakOrder.1 e] at hlt
    exact Bool.false_ne_true hlt
  match l, hlen with
  | [x, y], _ =>
    have hx : x ∈ [r, e] := hperm.mem_iff.1 (by simp)
    have hy : y ∈ [r, e] := hperm.mem_iff.1 (by simp)
    have hr : r ∈ [x, y] := hperm.mem_iff.2 (by simp)
    have he : e ∈ [x, y] := hperm.mem_iff.2 (by simp)
    have hyx : reportLess y x = false := by
      simpa using hsorted
    simp only [List.mem_cons, List.mem_singleton, List.not_mem_nil, or_false] at hx hy hr he
    rcases hx with rfl | rfl
    · rcases hy with rfl | rfl
      · rcases he with h | h <;> exact absurd h.symm hne
      · rw [hlt] at hyx
        exact absurd hyx (by simp)
    · rcases hy with rfl | rfl
      · rfl
      · rcases hr with h | h <;> exact absurd h hne

/-- C14: under any sort that meets the `std::sort` contract, `generateReport` prints the
header followed by one line per listed appointment, in the listed order, and in every
clinic state every Emergency appointment with urgency at least 2 is listed before every
Regular appointment; and on a clinic without appointments, booking a Regular appointment
and then an Emergency appointment of urgency 5 (ids registered) makes the report print
the Emergency line first and the Regular line second. -/
theorem C14_emergency_outranks_regular
    (sort : (ApptRef → ApptRef → Bool) → List ApptRef → List ApptRef) (hs : StdSort sort) :
    (∀ c : Clinic,
      (c.generateReport sort).2 = "\n--- Appointment Report ---\n" ++ String.join ((c.reportEntries sort).map
      (fun a => a.obj.date ++ " " ++ a.obj.time ++ " | Patient: " ++ a.obj.patientID ++
        " | Doctor: " ++ a.obj.doctorID ++ " | " ++ a.obj.getType ++ " | Priority: " ++
        toString a.obj.getPriority ++ "\n"))) ∧
    (∀ (c : Clinic) (i j : Nat) (r e : ApptRef) (reason : String) (u : Int),
      (c.reportEntries sort)[i]? = some r → (c.reportEntries sort)[j]? = some e →
      r.obj.kind = Kind.Regular reason → e.obj.kind = Kind.Emergency u → 2 ≤ u → j < i) ∧
    (∀ (c : Clinic) (r e : ApptRef) (reason : String),
      c.appointments = [] →
      r.obj.kind = Kind.Regular reason → e.obj.kind = Kind.Emergency 5 →
      (∃ p ∈ c.patients, p.id = r.obj.patientID) → (∃ d ∈ c.doctors, d.id = r.obj.doctorID) →
      (∃ p ∈ c.patients, p.id = e.obj.patientID) → (∃ d ∈ c.doctors, d.id = e.obj.doctorID) →
      ((c.bookAppointment r).1.bookAppointment e).1.reportEntries sort = [e, r] ∧
      (((c.bookAppointment r).1.bookAppointment e).1.generateReport sort).2 =
        "\n--- Appointment Report ---\n" ++ String.join ([e, r].map
      (fun a => a.obj.date ++ " " ++ a.obj.time ++ " | Patient: " ++ a.obj.patientID ++
        " | Doctor: " ++ a.obj.doctorID ++ " | " ++ a.obj.getType ++ " | Priority: " ++
        toString a.obj.getPriority ++ "\n"))) := by
  have hscenario : ∀ (c : Clinic) (r e : ApptRef) (reason : String),
      c.appointments = [] →
      r.obj.kind = Kind.Regular reason → e.obj.kind = Kind.Emergency 5 →
      (∃ p ∈ c.patients, p.id = r.obj.patientID) → (∃ d ∈ c.doctors, d.id = r.obj.doctorID) →
      (∃ p ∈ c.patients, p.id = e.obj.patientID) → (∃ d ∈ c.doctors, d.id = e.obj.doctorID) →
      ((c.bookAppointment r).1.bookAppointment e).1.reportEntries sort = [e, r] := by
    intro c r e reason hnil hr he hrp hrd hep hed
    have h1 := (bookAppointment_appointments_of_found c r hrp hrd).1
    have hep2 : ∃ p ∈ (c.bookAppointment r).1.patients, p.id = e.obj.patientID := by
      rw [registered_patient_iff,
        bookAppointment_map_patients (fun p => p.id) (fun _ _ => rfl) c r,
        ← registered_patient_iff]
      exact hep
    have hed2 : ∃ d ∈ (c.bookAppointment r).1.doctors, d.id = e.obj.doctorID := by
      rw [registered_doctor_iff,
        bookAppointment_map_doctors (fun d => d.id) (fun _ _ => rfl) c r,
        ← registered_doctor_iff]
      exact hed
    have h2 := (bookAppointment_appointments_of_found (c.bookAppointment r).1 e hep2 hed2).1
    rw [h1, hnil] at h2
    simp only [List.nil_append, List.cons_append] at h2
    obtain ⟨hperm, hsorted⟩ := hs reportLess
      ((c.bookAppointment r).1.bookAppointment e).1.appointments reportLess_strictWeakOrder
    have hperm2 : (((c.bookAppointment r).1.bookAppointment e).1.reportEntries sort).Perm
        [r, e] := hperm.trans (by rw [h2])
    have hlt : reportLess e r = true := by
      simp [reportLess, Appointment.getPriority, hr, he]
    exact sorted_pair_of_perm _ r e hperm2 hsorted hlt
  refine ⟨fun _ => rfl, ?_, ?_⟩
  · intro c i j r e reason u hi hj hr he hu
    have hp := (hs reportLess c.appointments reportLess_strictWeakOrder).2
    obtain ⟨hib, hri⟩ := List.getElem?_eq_some.1 hi
    obtain ⟨hjb, hej⟩ := List.getElem?_eq_some.1 hj
    have hpr : r.obj.getPriority = 1 := by simp [Appointment.getPriority, hr]
    have hpe : e.obj.getPriority = u := by simp [Appointment.getPriority, he]
    rcases Nat.lt_trichotomy i j with hlt | heq | hgt
    · have h := List.pairwise_iff_getElem.1 hp i j hib hjb hlt
      unfold Clinic.reportEntries at hri hej
      rw [hri, hej] at h
      simp only [reportLess, decide_eq_false_iff_not, not_lt, hpr, hpe] at h
      omega
    · subst heq
      rw [hi] at hj
      simp only [Option.some.injEq] at hj
      rw [hj, he] at hr
      cases hr
    · exact hgt
  · intro c r e reason hnil hr he hrp hrd hep hed
    have hent := hscenario c r e reason hnil hr he hrp hrd hep hed
    refine ⟨hent, ?_⟩
    have htext : (((c.bookAppointment r).1.bookAppointment e).1.generateReport sort).2 =
        "\n--- Appointment Report ---\n" ++ String.join
          ((((c.bookAppointment r).1.bookAppointment e).1.reportEntries sort).map
      (fun a => a.obj.date ++ " " ++ a.obj.time ++ " | Patient: " ++ a.obj.patientID ++
        " | Doctor: " ++ a.obj.doctorID ++ " | " ++ a.obj.getType ++ " | Priority: " ++
        toString a.obj.getPriority ++ "\n")) := rfl
    rw [htext, hent]

set_option maxRecDepth 100000 in
theorem C14_emergency_outranks_regular_witness :
    StdSort (insertionSort (α := ApptRef)) ∧
    ((demoBooked.reportEntries insertionSort)[1]? = some demoRegular ∧
      (demoBooked.reportEntries insertionSort)[0]? = some demoEmergency ∧
      demoRegular.obj.kind = Kind.Regular "Checkup" ∧
      demoEmergency.obj.kind = Kind.Emergency 5 ∧ (2 : Int) ≤ 5 ∧ 0 < 1) ∧
    (((demoBase.bookAppointment demoRegular).1.bookAppointment demoEmergency).1.reportEntries
      insertionSort = [demoEmergency, demoRegular] ∧
    (((demoBase.bookAppointment demoRegular).1.bookAppointment demoEmergency).1.generateReport
      insertionSort).2 = "\n--- Appointment Report ---\n" ++ String.join ([demoEmergency, demoRegular].map
      (fun a => a.obj.date ++ " " ++ a.obj.time ++ " | Patient: " ++ a.obj.patientID ++
        " | Doctor: " ++ a.obj.doctorID ++ " | " ++ a.obj.getType ++ " | Priority: " ++
        toString a.obj.getPriority ++ "\n"))) ∧
    (((demoBase.bookAppointment demoRegular).1.bookAppointment demoEmergency).1.generateReport
      insertionSort).2 =
      "\n--- Appointment Report ---\n2024-01-01 11:00 | Patient: P1 | Doctor: D1 | Emergency | Priority: 5\n2024-01-01 10:00 | Patient: P1 | Doctor: D1 | Regular | Priority: 1\n" :=
  ⟨insertionSort_stdSort,
    ⟨by decide, by decide, by decide, by decide, by decide,
      (C14_emergency_outranks_regular insertionSort insertionSort_stdSort).2.1 demoBooked 1 0
        demoRegular demoEmergency "Checkup" 5 (by decide) (by decide) (by decide) (by decide)
        (by decide)⟩,
    (C14_emergency_outranks_regular insertionSort insertionSort_stdSort).2.2 demoBase
      demoRegular demoEmergency "Checkup" (by decide) (by decide) (by decide) (by decide)
      (by decide) (by decide) (by decide),
    by decide⟩

/-! ## C15, C17: invariants of reachable states -/

theorem reachable_demoDupBooked : Reachable demoDupBooked :=
  Reachable.book demoRegular
    (Reachable.addDoctor "Bob" "D1" "Cardiology"
      (Reachable.addPatient "Carol" "P1" (Reachable.addPatient "Alice" "P1" Reachable.empty)))
    (by decide)

/-- C15: in every state reachable from the empty clinic by `addPatient`, `addDoctor`,
`bookAppointment` and `cancelAppointment`, every stored appointment's patientID is the id
of a registered patient and its doctorID the id of a registered doctor, and `findPatient`
and `findDoctor` succeed on them. -/
theorem C15_stored_ids_registered (c : Clinic) (hr : Reachable c) :
    ∀ a ∈ c.appointments,
      (∃ p ∈ c.patients, p.id = a.obj.patientID) ∧
      (∃ d ∈ c.doctors, d.id = a.obj.doctorID) ∧
      c.findPatient a.obj.patientID ≠ none ∧
      c.findDoctor a.obj.doctorID ≠ none := by
  obtain ⟨-, hpf, hdf, -, -⟩ := reachable_consistent c hr
  intro a ha
  refine ⟨?_, ?_, hpf a ha, hdf a ha⟩
  · by_contra hno
    apply hpf a ha
    rw [findPatient_eq_none_iff]
    exact fun p hp hid => hno ⟨p, hp, hid⟩
  · by_contra hno
    apply hdf a ha
    rw [findDoctor_eq_none_iff]
    exact fun d hd hid => hno ⟨d, hd, hid⟩

theorem C15_stored_ids_registered_witness :
    Reachable demoBooked ∧
    ∀ a ∈ demoBooked.appointments,
      (∃ p ∈ demoBooked.patients, p.id = a.obj.patientID) ∧
      (∃ d ∈ demoBooked.doctors, d.id = a.obj.doctorID) ∧
      demoBooked.findPatient a.obj.patientID ≠ none ∧
      demoBooked.findDoctor a.obj.doctorID ≠ none :=
  ⟨reachable_demoBooked, C15_stored_ids_registered demoBooked reachable_demoBooked⟩

theorem refsOK_entry (find : String → Option Nat) (key : ApptRef → String)
    (refs : List (List Nat)) (appts : List ApptRef) (h : RefsOK find key refs appts)
    (hnd : (appts.map (fun a => a.ptr)).Nodup) (i : Nat) (r : List Nat)
    (hi : refs[i]? = some r) :
    r = (appts.filter (fun a => find (key a) == some i)).map (fun a => a.ptr) ∧
    r.Nodup ∧ ∀ n ∈ r, ∃ a ∈ appts, a.ptr = n := by
  have hr := h i r hi
  refine ⟨hr, ?_, ?_⟩
  · rw [hr]
    exact List.Nodup.sublist ((List.filter_sublist appts).map _) hnd
  · intro n hn
    rw [hr] at hn
    obtain ⟨a, ha, rfl⟩ := List.mem_map.1 hn
    exact ⟨a, (List.mem_filter.1 ha).1, rfl⟩

/-- C17: in every state reachable from the empty clinic by `addPatient`, `addDoctor`,
`bookAppointment` and `cancelAppointment`, the reference list of the patient at position
`i` is exactly the sequence, in collection order, of the addresses of the stored
appointments `a` with `findPatient(a.patientID)` at `i`; it has no repetition and every
address in it is the address of a stored appointment (no dangling reference).  The same
holds for every doctor with `findDoctor(a.doctorID)`. -/
theorem C17_back_references_consistent (c : Clinic) (hr : Reachable c) :
    (∀ i p, c.patients[i]? = some p →
      p.appointments =
        (c.appointments.filter (fun a => c.findPatient a.obj.patientID == some i)).map
          (fun a => a.ptr) ∧
      p.appointments.Nodup ∧
      ∀ n ∈ p.appointments, ∃ a ∈ c.appointments, a.ptr = n) ∧
    (∀ i d, c.doctors[i]? = some d →
      d.appointments =
        (c.appointments.filter (fun a => c.findDoctor a.obj.doctorID == some i)).map
          (fun a => a.ptr) ∧
      d.appointments.Nodup ∧
      ∀ n ∈ d.appointments, ∃ a ∈ c.appointments, a.ptr = n) := by
  obtain ⟨hnd, -, -, hpr, hdr⟩ := reachable_consistent c hr
  constructor
  · intro i p hi
    exact refsOK_entry _ _ _ _ hpr hnd i p.appointments (by simp [List.getElem?_map, hi])
  · intro i d hi
    exact refsOK_entry _ _ _ _ hdr hnd i d.appointments (by simp [List.getElem?_map, hi])

theorem C17_back_references_consistent_witness :
    Reachable demoDupBooked ∧
    ((∀ i p, demoDupBooked.patients[i]? = some p →
      p.appointments =
        (demoDupBooked.appointments.filter
          (fun a => demoDupBooked.findPatient a.obj.patientID == some i)).map
          (fun a => a.ptr) ∧
      p.appointments.Nodup ∧
      ∀ n ∈ p.appointments, ∃ a ∈ demoDupBooked.appointments, a.ptr = n) ∧
    (∀ i d, demoDupBooked.doctors[i]? = some d →
      d.appointments =
        (demoDupBooked.appointments.filter
          (fun a => demoDupBooked.findDoctor a.obj.doctorID == some i)).map
          (fun a => a.ptr) ∧
      d.appointments.Nodup ∧
      ∀ n ∈ d.appointments, ∃ a ∈ demoDupBooked.appointments, a.ptr = n)) :=
  ⟨reachable_demoDupBooked, C17_back_references_consistent demoDupBooked reachable_demoDupBooked⟩

/-! ## C16: what the operations never touch -/

theorem bookAppointment_mem (c : Clinic) (appt x : ApptRef)
    (hx : x ∈ (c.bookAppointment appt).1.appointments) : x ∈ c.appointments ∨ x = appt := by
  rcases bookAppointment_cases c appt with h | ⟨p, d, -, -, h⟩
  · rw [h] at hx
    exact Or.inl hx
  · rw [h] at hx
    simpa using hx

theorem cancelAppointment_sublist (c : Clinic) (pid did date time : String) :
    (c.cancelAppointment pid did date time).1.appointments.Sublist c.appointments := by
  rcases cancelAppointment_cases c pid did date time with h | ⟨pre, a, post, hl, h⟩
  · rw [h]
  · rw [h, hl]
    exact List.Sublist.append (List.Sublist.refl pre) (List.sublist_cons_self a post)

theorem same_address_same_object (l : List ApptRef) (hnd : (l.map (fun a => a.ptr)).Nodup)
    (x y : ApptRef) (hx : x ∈ l) (hy : y ∈ l) (h : x.ptr = y.ptr) : x = y :=
  List.inj_on_of_nodup_map hnd hx hy h

/-- C16: patients and doctors are never removed or altered in identity and stored
appointments are never edited.  `bookAppointment`, `cancelAppointment` and `generateReport`
leave the sequences of patient `(name, id)` and doctor `(name, id, specialty)` records as
they are; `addPatient` / `addDoctor` append one record to their own sequence and leave the
other; the appointment collection after an operation is the old one, the old one with the
booked appointment appended, or the old one with elements erased; and in a state whose
appointments live at pairwise different addresses (the booked one at a new address), an
appointment stored both before and after any of the five operations has the same date,
time, patientID, doctorID, kind and reason or urgency. -/
theorem C16_identity_and_records_kept
    (sort : (ApptRef → ApptRef → Bool) → List ApptRef → List ApptRef)
    (c : Clinic) (appt : ApptRef) (pid did date time name id spec : String) :
    (patientRecords (c.bookAppointment appt).1 = patientRecords c ∧
      doctorRecords (c.bookAppointment appt).1 = doctorRecords c ∧
      ((c.bookAppointment appt).1.appointments = c.appointments ∨
        (c.bookAppointment appt).1.appointments = c.appointments ++ [appt])) ∧
    (patientRecords (c.cancelAppointment pid did date time).1 = patientRecords c ∧
      doctorRecords (c.cancelAppointment pid did date time).1 = doctorRecords c ∧
      (c.cancelAppointment pid did date time).1.appointments.Sublist c.appointments) ∧
    (c.generateReport sort).1 = c ∧
    (patientRecords (c.addPatient name id).1 = patientRecords c ++ [(name, id)] ∧
      doctorRecords (c.addPatient name id).1 = doctorRecords c ∧
      (c.addPatient name id).1.appointments = c.appointments) ∧
    (doctorRecords (c.addDoctor name id spec).1 = doctorRecords c ++ [(name, id, spec)] ∧
      patientRecords (c.addDoctor name id spec).1 = patientRecords c ∧
      (c.addDoctor name id spec).1.appointments = c.appointments) ∧
    ((c.appointments.map (fun a => a.ptr)).Nodup →
      (∀ a ∈ c.appointments, a.ptr ≠ appt.ptr) →
      ∀ c2, (c2 = (c.bookAppointment appt).1 ∨ c2 = (c.cancelAppointment pid did date time).1 ∨
          c2 = (c.generateReport sort).1 ∨ c2 = (c.addPatient name id).1 ∨
          c2 = (c.addDoctor name id spec).1) →
        ∀ x ∈ c2.appointments, ∀ y ∈ c.appointments, x.ptr = y.ptr → x.obj = y.obj) := by
  refine ⟨⟨?_, ?_, ?_⟩, ⟨?_, ?_, cancelAppointment_sublist c pid did date time⟩, rfl,
    ⟨?_, rfl, rfl⟩, ⟨?_, rfl, rfl⟩, ?_⟩
  · exact bookAppointment_map_patients (fun p => (p.name, p.id)) (fun _ _ => rfl) c appt
  · exact bookAppointment_map_doctors (fun d => (d.name, d.id, d.specialty)) (fun _ _ => rfl)
      c appt
  · rcases bookAppointment_cases c appt with h | ⟨p, d, -, -, h⟩
    · rw [h]
      exact Or.inl rfl
    · rw [h]
      exact Or.inr rfl
  · exact cancelAppointment_map_patients (fun p => (p.name, p.id)) (fun _ _ => rfl) c pid did
      date time
  · exact cancelAppointment_map_doctors (fun d => (d.name, d.id, d.specialty))
      (fun _ _ => rfl) c pid did date time
  · simp [patientRecords, Clinic.addPatient, Patient.new]
  · simp [doctorRecords, Clinic.addDoctor, Doctor.new]
  · intro hnd hfresh c2 hc2 x hx y hy hxy
    have hmem : x ∈ c.appointments ∨ x = appt := by
      rcases hc2 with rfl | rfl | rfl | rfl | rfl
      · exact bookAppointment_mem c appt x hx
      · exact Or.inl ((cancelAppointment_sublist c pid did date time).subset hx)
      · exact Or.inl hx
      · exact Or.inl hx
      · exact Or.inl hx
    rcases hmem with hmem | rfl
    · rw [same_address_same_object c.appointments hnd x y hmem hy hxy]
    · exact absurd hxy.symm (hfresh y hy)

theorem C16_identity_and_records_kept_witness :
    (demoBooked.appointments.map (fun a => a.ptr)).Nodup ∧
    (∀ a ∈ demoBooked.appointments, a.ptr ≠ demoRegularTwin.ptr) ∧
    (∀ x ∈ (demoBooked.cancelAppointment "P1" "D1" "2024-01-01" "10:00").1.appointments,
      ∀ y ∈ demoBooked.appointments, x.ptr = y.ptr → x.obj = y.obj) :=
  ⟨by decide, by decide,
    (C16_identity_and_records_kept insertionSort demoBooked demoRegularTwin "P1" "D1"
      "2024-01-01" "10:00" "Carol" "P2" "Cardiology").2.2.2.2.2 (by decide) (by decide)
      (demoBooked.cancelAppointment "P1" "D1" "2024-01-01" "10:00").1 (Or.inr (Or.inl rfl))⟩

/-! ## C18: cancel undoes book -/

theorem find_if_append_singleton {α : Type} (pred : α → Bool) (l : List α) (a : α)
    (hl : ∀ x ∈ l, pred x = false) (ha : pred a = true) :
    find_if pred (l ++ [a]) = some (l.length, a) := by
  induction l with
  | nil => simp [find_if, ha]
  | cons x xs ih =>
    have hx : pred x = false := hl x (by simp)
    have hxs : ∀ y ∈ xs, pred y = false := fun y hy => hl y (List.mem_cons_of_mem _ hy)
    simp [find_if, hx, ih hxs]

theorem modifyAt_modifyAt_cancel {α : Type} (f g : α → α) (i : Nat) (l : List α)
    (h : ∀ x, l[i]? = some x → f (g x) = x) :
    modifyAt f i (modifyAt g i l) = l := by
  induction l generalizing i with
  | nil => cases i <;> simp [modifyAt]
  | cons x xs ih =>
    cases i with
    | zero =>
      simp only [modifyAt, List.cons.injEq, and_true]
      exact h x (by simp)
    | succ i =>
      simp only [modifyAt, List.cons.injEq, true_and]
      exact ih i (fun y hy => h y (by simpa using hy))

theorem filter_bne_append_self (l : List Nat) (n : Nat) (h : n ∉ l) :
    (l ++ [n]).filter (fun x => x != n) = l := by
  rw [List.filter_append, (filter_bne_facts l n).2.2.2.2 h]
  simp

/-- C18: in a reachable state, for an appointment at a new address whose patientID and
doctorID are registered and whose four fields match no stored appointment,
`bookAppointment` succeeds and the following
`cancelAppointment(patientID, doctorID, date, time)` succeeds and returns exactly the
state before the booking: same appointment collection, same patients and doctors with the
same reference lists. -/
theorem C18_cancel_undoes_book (c : Clinic) (hr : Reachable c) (appt : ApptRef)
    (hfresh : ∀ a ∈ c.appointments, a.ptr ≠ appt.ptr)
    (hp : ∃ p ∈ c.patients, p.id = appt.obj.patientID)
    (hd : ∃ d ∈ c.doctors, d.id = appt.obj.doctorID)
    (hnone : ∀ a ∈ c.appointments,
      ¬ FourFieldsEq appt.obj.patientID appt.obj.doctorID appt.obj.date appt.obj.time a) :
    (c.bookAppointment appt).2 = "Appointment booked.\n" ∧
    (c.bookAppointment appt).1.cancelAppointment appt.obj.patientID appt.obj.doctorID
      appt.obj.date appt.obj.time = (c, "Appointment cancelled.\n") := by
  obtain ⟨hnd, -, -, hpr, hdr⟩ := reachable_consistent c hr
  have hout := (bookAppointment_appointments_of_found c appt hp hd).2
  rcases bookAppointment_cases c appt with h | ⟨p, d, hfp, hfd, hb⟩
  · rw [h] at hout
    have hne : "Invalid patient or doctor ID.\n" ≠ "Appointment booked.\n" := by decide
    exact absurd hout hne
  · refine ⟨hout, ?_⟩
    rw [hb]
    have hfind : find_if
        (cancelMatch appt.obj.patientID appt.obj.doctorID appt.obj.date appt.obj.time)
        (c.appointments ++ [appt]) = some (c.appointments.length, appt) := by
      apply find_if_append_singleton
      · intro x hx
        have := hnone x hx
        rw [← cancelMatch_iff] at this
        simpa using this
      · rw [cancelMatch_iff]
        exact ⟨rfl, rfl, rfl, rfl⟩
    have hfp2 := findPatient_congr c
      { patients := modifyAt (fun x => x.addAppointment appt.ptr) p c.patients
        doctors := modifyAt (fun x => x.addAppointment appt.ptr) d c.doctors
        appointments := c.appointments ++ [appt] }
      (map_modifyAt (fun x : Patient => x.id) (fun x => x.addAppointment appt.ptr)
        (fun _ => rfl) p c.patients)
    have hfd2 := findDoctor_congr c
      { patients := modifyAt (fun x => x.addAppointment appt.ptr) p c.patients
        doctors := modifyAt (fun x => x.addAppointment appt.ptr) d c.doctors
        appointments := c.appointments ++ [appt] }
      (map_modifyAt (fun x : Doctor => x.id) (fun x => x.addAppointment appt.ptr)
        (fun _ => rfl) d c.doctors)
    have hnotin : appt.ptr ∉ c.appointments.map (fun a => a.ptr) := by
      intro hmem
      obtain ⟨a, ha, hptr⟩ := List.mem_map.1 hmem
      exact hfresh a ha hptr
    have hpat : modifyAt (fun x => x.removeAppointment appt.ptr) p
        (modifyAt (fun x => x.addAppointment appt.ptr) p c.patients) = c.patients := by
      apply modifyAt_modifyAt_cancel
      intro x hx
      have hx2 : appt.ptr ∉ x.appointments := fun hmem =>
        hnotin (refsOK_subset _ _ _ _ hpr x.appointments
          (List.mem_map_of_mem (fun p => p.appointments) (List.getElem?_mem hx)) appt.ptr hmem)
      cases x
      simp only [Patient.addAppointment, Patient.removeAppointment, Patient.mk.injEq, true_and]
      exact filter_bne_append_self _ _ hx2
    have hdoc : modifyAt (fun x => x.removeAppointment appt.ptr) d
        (modifyAt (fun x => x.addAppointment appt.ptr) d c.doctors) = c.doctors := by
      apply modifyAt_modifyAt_cancel
      intro x hx
      have hx2 : appt.ptr ∉ x.appointments := fun hmem =>
        hnotin (refsOK_subset _ _ _ _ hdr x.appointments
          (List.mem_map_of_mem (fun d => d.appointments) (List.getElem?_mem hx)) appt.ptr hmem)
      cases x
      simp only [Doctor.addAppointment, Doctor.removeAppointment, Doctor.mk.injEq, true_and]
      exact filter_bne_append_self _ _ hx2
    rw [cancelAppointment_of_found _ _ _ _ _ c.appointments.length appt hfind, hfp2, hfd2,
      hfp, hfd]
    simp only [hpat, hdoc]
    have herase : (c.appointments ++ [appt]).eraseIdx c.appointments.length = c.appointments := by
      rw [List.eraseIdx_append_of_length_le (Nat.le_refl _)]
      simp
    rw [herase]

theorem C18_cancel_undoes_book_witness :
    Reachable demoOne ∧
    (∀ a ∈ demoOne.appointments, a.ptr ≠ demoEmergency.ptr) ∧
    (∃ p ∈ demoOne.patients, p.id = demoEmergency.obj.patientID) ∧
    (∃ d ∈ demoOne.doctors, d.id = demoEmergency.obj.doctorID) ∧
    (∀ a ∈ demoOne.appointments,
      ¬ FourFieldsEq demoEmergency.obj.patientID demoEmergency.obj.doctorID
        demoEmergency.obj.date demoEmergency.obj.time a) ∧
    ((demoOne.bookAppointment demoEmergency).2 = "Appointment booked.\n" ∧
    (demoOne.bookAppointment demoEmergency).1.cancelAppointment demoEmergency.obj.patientID
      demoEmergency.obj.doctorID demoEmergency.obj.date demoEmergency.obj.time =
      (demoOne, "Appointment cancelled.\n")) :=
  ⟨reachable_demoOne, by decide, by decide, by decide, by decide,
    C18_cancel_undoes_book demoOne reachable_demoOne demoEmergency (by decide) (by decide)
      (by decide) (by decide)⟩

/-! ## C19: the comparator of the report -/

theorem insertBehindEquals_perm {α : Type} (comp : α → α → Bool) (a : α) (l : List α) :
    (insertBehindEquals comp a l).Perm (a :: l) := by
  induction l with
  | nil => simp [insertBehindEquals]
  | cons x xs ih =>
    by_cases h : comp a x = true
    · simp [insertBehindEquals, h]
    · simp only [insertBehindEquals, h, Bool.false_eq_true, if_false]
      exact (List.Perm.cons x ih).trans (List.Perm.swap a x xs)

theorem insertBehindEquals_pairwise {α : Type} (comp : α → α → Bool)
    (hc : StrictWeakOrder comp) (a : α) (l : List α)
    (hl : l.Pairwise (fun x y => comp y x = false)) :
    (insertBehindEquals comp a l).Pairwise (fun x y => comp y x = false) := by
  induction l with
  | nil => simp [insertBehindEquals]
  | cons x xs ih =>
    obtain ⟨hx, hxs⟩ := List.pairwise_cons.1 hl
    by_cases h : comp a x = true
    · simp only [insertBehindEquals, h, if_true]
      refine List.pairwise_cons.2 ⟨?_, hl⟩
      intro y hy
      rcases List.mem_cons.1 hy with rfl | hy
      · exact strictWeakOrder_asymm comp hc a y h
      · by_contra hya
        simp only [Bool.not_eq_false] at hya
        have hyx := hc.2.1 y a x hya h
        rw [hx y hy] at hyx
        exact Bool.false_ne_true hyx
    · simp only [Bool.not_eq_true] at h
      simp only [insertBehindEquals, h, Bool.false_eq_true, if_false]
      refine List.pairwise_cons.2 ⟨?_, ih hxs⟩
      intro y hy
      rcases List.mem_cons.1 ((insertBehindEquals_perm comp a xs).mem_iff.1 hy) with rfl | hy
      · exact h
      · exact hx y hy

theorem insertionSortTiesReversed_stdSort {α : Type} :
    StdSort (insertionSortTiesReversed (α := α)) := by
  intro comp l hc
  constructor
  · induction l with
    | nil => simp [insertionSortTiesReversed]
    | cons x xs ih =>
      exact (insertBehindEquals_perm comp x _).trans (List.Perm.cons x ih)
  · induction l with
    | nil => simp [insertionSortTiesReversed]
    | cons x xs ih => exact insertBehindEquals_pairwise comp hc x _ ih

theorem report_priorities_sorted
    (sort : (ApptRef → ApptRef → Bool) → List ApptRef → List ApptRef) (hs : StdSort sort)
    (c : Clinic) :
    ((c.reportEntries sort).map (fun a => a.obj.getPriority)).Pairwise (fun x y => x ≥ y) := by
  have hp := (hs reportLess c.appointments reportLess_strictWeakOrder).2
  rw [List.pairwise_map]
  unfold Clinic.reportEntries
  refine hp.imp ?_
  intro a b hab
  simpa [reportLess] using hab

/-- C19: the comparator of `generateReport`, `less(a, b) := priority(a) > priority(b)`, is
a strict weak ordering: irreflexive, transitive, two appointments are incomparable exactly
when their priorities are equal, and incomparability is transitive.  Hence the report is
determined up to the order of appointments with equal priority: the reports of any two
sorts that meet the `std::sort` contract are permutations of each other and carry the same
priority at every position. -/
theorem C19_comparator_strict_weak_order :
    (∀ a, reportLess a a = false) ∧
    (∀ a b c, reportLess a b = true → reportLess b c = true → reportLess a c = true) ∧
    (∀ a b, (reportLess a b = false ∧ reportLess b a = false) ↔
      a.obj.getPriority = b.obj.getPriority) ∧
    (∀ a b c, (reportLess a b = false ∧ reportLess b a = false) →
      (reportLess b c = false ∧ reportLess c b = false) →
      (reportLess a c = false ∧ reportLess c a = false)) ∧
    StrictWeakOrder reportLess ∧
    (∀ (s1 s2 : (ApptRef → ApptRef → Bool) → List ApptRef → List ApptRef),
      StdSort s1 → StdSort s2 → ∀ c : Clinic,
        (c.reportEntries s1).Perm (c.reportEntries s2) ∧
        (c.reportEntries s1).map (fun a => a.obj.getPriority) =
          (c.reportEntries s2).map (fun a => a.obj.getPriority)) := by
  have heq : ∀ a b, (reportLess a b = false ∧ reportLess b a = false) ↔
      a.obj.getPriority = b.obj.getPriority := by
    intro a b
    simp only [reportLess, decide_eq_false_iff_not, not_lt]
    constructor
    · rintro ⟨h1, h2⟩
      omega
    · intro h
      omega
  refine ⟨reportLess_strictWeakOrder.1, reportLess_strictWeakOrder.2.1, heq, ?_,
    reportLess_strictWeakOrder, ?_⟩
  · intro a b c hab hbc
    rw [heq] at hab hbc ⊢
    exact hab.trans hbc
  · intro s1 s2 h1 h2 c
    have hp1 := (h1 reportLess c.appointments reportLess_strictWeakOrder).1
    have hp2 := (h2 reportLess c.appointments reportLess_strictWeakOrder).1
    have hperm : (c.reportEntries s1).Perm (c.reportEntries s2) := hp1.trans hp2.symm
    refine ⟨hperm, ?_⟩
    exact List.eq_of_perm_of_sorted (hperm.map _) (report_priorities_sorted s1 h1 c)
      (report_priorities_sorted s2 h2 c)

theorem C19_comparator_strict_weak_order_witness :
    StdSort (insertionSort (α := ApptRef)) ∧
    StdSort (insertionSortTiesReversed (α := ApptRef)) ∧
    demoTwins.reportEntries insertionSort = [demoRegular, demoRegularTwin] ∧
    demoTwins.reportEntries insertionSortTiesReversed = [demoRegularTwin, demoRegular] ∧
    ((demoTwins.reportEntries insertionSort).Perm
        (demoTwins.reportEntries insertionSortTiesReversed) ∧
      (demoTwins.reportEntries insertionSort).map (fun a => a.obj.getPriority) =
        (demoTwins.reportEntries insertionSortTiesReversed).map
          (fun a => a.obj.getPriority)) :=
  ⟨insertionSort_stdSort, insertionSortTiesReversed_stdSort, by decide, by decide,
    C19_comparator_strict_weak_order.2.2.2.2.2 insertionSort insertionSortTiesReversed
      insertionSort_stdSort insertionSortTiesReversed_stdSort demoTwins⟩

end CareQueue
